import Mathlib

/-!
Verification development for the Deluge firmware sample analysis and
caching engine (`src/deluge/model/sample/sample.cpp`).

The C++ code is shallowly embedded: 32-bit machine integers become `Int`
(with explicit wrapping where the code relies on two's-complement
behaviour), unsigned 32/64-bit quantities become `Nat` with explicit
reductions mod `2^32` at the casts the source performs, and the in-place
data structures (the ordered cache-key array, the per-direction zone
array) become functional state that each operation consumes and returns.
Collaborators that live outside the analysed translation unit (the memory
allocator, the cluster pool, the time stretcher) are modelled as oracles
passed to each call: a boolean telling whether an allocation succeeds, a
predicate telling which source clusters are resident.
-/

namespace DelugeSample

/-- Arithmetic (sign-propagating) right shift, the behaviour of C `>>` on
a negative `int32_t` on the target (floor division by a power of two). -/
def sar (a : Int) (k : Nat) : Int :=
  match a with
  | .ofNat m => .ofNat (m >>> k)
  | .negSucc m => .negSucc (m >>> k)

/-- The low `k` bits of a two's-complement value, the behaviour of C
`a & ((1 << k) - 1)` on an `int32_t`. -/
def lowBits (a : Int) (k : Nat) : Int :=
  a.emod (2 ^ k)

/-- Reduction of an `Int` to the `Nat` a C cast `(uint32_t)a` produces. -/
def toU32 (a : Int) : Nat :=
  (a.emod (2 ^ (32 : Nat))).toNat

theorem sar_nonneg_eq (m : Nat) (k : Nat) : sar (Int.ofNat m) k = Int.ofNat (m / 2 ^ k) := by
  simp [sar, Nat.shiftRight_eq_div_pow]

theorem sar_zero (k : Nat) : sar 0 k = 0 := by
  simp [sar]

/-- Constant `NO_ERROR` (`definitions_cxx.hpp`, not under `src/`; only the value
`0` versus non-`0` matters to the analysed code). -/
def NO_ERROR : Int := 0

/-- Constant `ERROR_INSUFFICIENT_RAM` (`definitions_cxx.hpp`, not under `src/`;
any fixed nonzero code). -/
def ERROR_INSUFFICIENT_RAM : Int := 1

/-- Constant `kInterpolationMaxNumSamples`. Modelled from the spec: the fixed
interpolation window length ("half the interpolation window" is added as
ring-out padding); the defining header is not under `src/`. -/
def kInterpolationMaxNumSamples : Nat := 16

/-- Constant `kCacheByteDepth`. Modelled from the spec: the fixed byte depth of
render-cache storage ("fixedCacheByteDepth"); the defining header is not
under `src/`. -/
def kCacheByteDepth : Nat := 2

/-! ## Render Cache Store (`Sample::getOrCreateCache`) -/

/-- One element of the per-sample ordered cache-key array
(`struct SampleCacheElement`, `sample.cpp`). The owned `SampleCache*` is
abstracted to a numeric entry identity. -/
structure SampleCacheElement where
  phaseIncrement : Int
  timeStretchRat : Int
  skipSamplesAtStart : Int
  reversedWord : Nat
  cache : Nat
deriving Repr, DecidableEq

/-- The four `uint32_t` key words `getOrCreateCache` builds
(`keyWords[0..3]`, `sample.cpp` lines 186-190). -/
def keyWords (phaseIncrement timeStretchRat skipSamplesAtStart : Int) (reversed : Bool) :
    Nat × Nat × Nat × Nat :=
  (toU32 phaseIncrement, toU32 timeStretchRat, toU32 skipSamplesAtStart,
    if reversed then 1 else 0)

def SampleCacheElement.key (e : SampleCacheElement) : Nat × Nat × Nat × Nat :=
  (toU32 e.phaseIncrement, toU32 e.timeStretchRat, toU32 e.skipSamplesAtStart, e.reversedWord)

/-- Lexicographic order on the four key words. Modelled from the spec:
the multi-word ordered index keeps elements sorted by the concatenated
key (the container class is not under `src/`). -/
def keyLE (a b : Nat × Nat × Nat × Nat) : Bool :=
  if a.1 ≠ b.1 then a.1 < b.1
  else if a.2.1 ≠ b.2.1 then a.2.1 < b.2.1
  else if a.2.2.1 ≠ b.2.2.1 then a.2.2.1 < b.2.2.1
  else a.2.2.2 ≤ b.2.2.2

/-- Operation `searchMultiWordExact`: find the element carrying exactly the given
key, if any. Modelled from the spec: "Exact match on the 4-field key via
an ordered multi-key index" (container class not under `src/`). -/
def searchMultiWordExact (l : List SampleCacheElement) (k : Nat × Nat × Nat × Nat) :
    Option SampleCacheElement :=
  l.find? (fun e => e.key = k)

/-- Operation `insertAtKeyMultiWord` followed by the field writes: sorted insertion
of a fully initialised element. Modelled from the spec: "sorted insert"
into the ordered multi-key index (container class not under `src/`). -/
def insertAtKeyMultiWord (e : SampleCacheElement) : List SampleCacheElement → List SampleCacheElement
  | [] => [e]
  | x :: xs => if keyLE e.key x.key then e :: x :: xs else x :: insertAtKeyMultiWord e xs

/-- The state of one Sample's render cache store: the ordered element
array plus a counter providing fresh entry identities (standing for the
addresses `new (memory) SampleCache(...)` would return). -/
structure CacheStore where
  caches : List SampleCacheElement
  nextId : Nat
deriving Repr, DecidableEq

/-- Value `skipSamplesAtStart` as computed from the holder's start/end
positions (`sample.cpp` lines 178-184; the spec gives the same formula
for `SampleHolder::getEndPos`, whose class is not under `src/`). -/
def skipOf (lengthInSamples : Int) (reversed : Bool) (startPos endPos : Int) : Int :=
  if !reversed then startPos else lengthInSamples - endPos

/-- Value `combinedIncrement = ((uint64_t)(uint32_t)phaseIncrement *
(uint32_t)timeStretchRatio) >> 24` (`sample.cpp` line 205). -/
def combinedIncrement (phaseIncrement timeStretchRat : Int) : Nat :=
  (toU32 phaseIncrement * toU32 timeStretchRat) >>> 24

/-- Value `lengthInSamplesCached` (`sample.cpp` lines 207-216): the `uint64_t`
floor division plus one, then the two ring-out paddings. The subtraction
`lengthInSamples - skipSamplesAtStart` is 32-bit arithmetic cast to
`uint64_t`. -/
def cachedSampleCount (lengthInSamples phaseIncrement timeStretchRat skip : Int) : Nat :=
  let base := (toU32 (lengthInSamples - skip) <<< 24) / combinedIncrement phaseIncrement timeStretchRat + 1
  let base := if phaseIncrement ≠ 16777216 then base + (kInterpolationMaxNumSamples >>> 1) else base
  if timeStretchRat ≠ 16777216 then base + 16384 else base

/-- Value `lengthInBytesCached` (`sample.cpp` line 218). -/
def cachedByteCount (lengthInSamples phaseIncrement timeStretchRat skip numChannels : Int) : Nat :=
  cachedSampleCount lengthInSamples phaseIncrement timeStretchRat skip * kCacheByteDepth
    * toU32 numChannels

/-- Outcome of one `getOrCreateCache` call: the returned entry (if any),
the `*created` out-parameter, the resulting store, and whether the call
reached `GeneralMemoryAllocator::get().alloc` at all. -/
structure GetOrCreateResult where
  cache : Option Nat
  created : Bool
  store : CacheStore
  allocated : Bool
deriving Repr, DecidableEq

/-- Function `Sample::getOrCreateCache` (`sample.cpp` lines 175-249). `allocOK`
tells whether the allocator call would succeed, `insertOK` whether the
ordered-array insertion would succeed (both are collaborators outside the
analysed code). -/
def getOrCreateCache (lengthInSamples numChannels : Int)
    (phaseIncrement timeStretchRat : Int) (reversed : Bool) (startPos endPos : Int)
    (mayCreate : Bool) (allocOK insertOK : Bool) (st : CacheStore) : GetOrCreateResult :=
  let skip := skipOf lengthInSamples reversed startPos endPos
  let k := keyWords phaseIncrement timeStretchRat skip reversed
  match searchMultiWordExact st.caches k with
  | some e => ⟨some e.cache, false, st, false⟩
  | none =>
    if !mayCreate then ⟨none, false, st, false⟩
    else if cachedByteCount lengthInSamples phaseIncrement timeStretchRat skip numChannels
        ≥ 32 <<< 20 then
      ⟨none, false, st, false⟩
    else if !allocOK then ⟨none, false, st, true⟩
    else if !insertOK then ⟨none, false, st, true⟩
    else
      let e : SampleCacheElement :=
        ⟨phaseIncrement, timeStretchRat, skip, if reversed then 1 else 0, st.nextId⟩
      ⟨some st.nextId, true, ⟨insertAtKeyMultiWord e st.caches, st.nextId + 1⟩, true⟩

/-- Repeating `getOrCreateCache` with one fixed parameter set: the list of
`(returned entry, created)` pairs of `n` successive calls with
`mayCreate = true`, threading the store. -/
def getOrCreateCacheRepeated (lengthInSamples numChannels : Int)
    (phaseIncrement timeStretchRat : Int) (reversed : Bool) (startPos endPos : Int)
    (allocOK insertOK : Bool) : Nat → CacheStore → List (Option Nat × Bool) × CacheStore
  | 0, st => ([], st)
  | n + 1, st =>
    let r := getOrCreateCache lengthInSamples numChannels phaseIncrement timeStretchRat
      reversed startPos endPos true allocOK insertOK st
    let rest := getOrCreateCacheRepeated lengthInSamples numChannels phaseIncrement
      timeStretchRat reversed startPos endPos allocOK insertOK n r.store
    ((r.cache, r.created) :: rest.1, rest.2)

theorem searchMultiWordExact_insert (e : SampleCacheElement) (l : List SampleCacheElement)
    (h : searchMultiWordExact l e.key = none) :
    searchMultiWordExact (insertAtKeyMultiWord e l) e.key = some e := by
  induction l with
  | nil => simp [searchMultiWordExact, insertAtKeyMultiWord, List.find?]
  | cons x xs ih =>
    simp only [searchMultiWordExact, List.find?_eq_none] at h
    have hx : ¬ (x.key = e.key) := by simpa using h x (by simp)
    have hxs : searchMultiWordExact xs e.key = none := by
      simp only [searchMultiWordExact, List.find?_eq_none]
      intro a ha
      simpa using h a (by simp [ha])
    simp only [insertAtKeyMultiWord]
    by_cases hle : keyLE e.key x.key
    · simp [searchMultiWordExact, List.find?, hle]
    · simp only [hle, if_false]
      have := ih hxs
      simp only [searchMultiWordExact, List.find?] at this ⊢
      simp [decide_eq_true_eq, hx, this]

theorem getOrCreateCache_hit (lengthInSamples numChannels : Int)
    (phaseIncrement timeStretchRat : Int) (reversed : Bool) (startPos endPos : Int)
    (mayCreate allocOK insertOK : Bool) (st : CacheStore) (e : SampleCacheElement)
    (h : searchMultiWordExact st.caches
      (keyWords phaseIncrement timeStretchRat
        (skipOf lengthInSamples reversed startPos endPos) reversed) = some e) :
    getOrCreateCache lengthInSamples numChannels phaseIncrement timeStretchRat reversed
      startPos endPos mayCreate allocOK insertOK st = ⟨some e.cache, false, st, false⟩ := by
  simp [getOrCreateCache, h]

/-- Claim C2 — on one store, with a key not yet present and a creation that
the allocator and index insertion let succeed (and whose size estimate is
under the 32 MiB cap), the first `mayCreate = true` call creates the
entry and reports `created = true`, and every one of the `n` following
calls with the same parameters returns that same entry with
`created = false`; moreover a missing key looked up with
`mayCreate = false` returns nothing and leaves the store untouched. -/
theorem getOrCreateCache_key_uniqueness (lengthInSamples numChannels : Int)
    (phaseIncrement timeStretchRat : Int) (reversed : Bool) (startPos endPos : Int)
    (st : CacheStore) (n : Nat)
    (hmiss : searchMultiWordExact st.caches
      (keyWords phaseIncrement timeStretchRat
        (skipOf lengthInSamples reversed startPos endPos) reversed) = none)
    (hcap : cachedByteCount lengthInSamples phaseIncrement timeStretchRat
      (skipOf lengthInSamples reversed startPos endPos) numChannels < 32 <<< 20) :
    (getOrCreateCacheRepeated lengthInSamples numChannels phaseIncrement timeStretchRat
        reversed startPos endPos true true (n + 1) st).1
      = (some st.nextId, true) :: List.replicate n (some st.nextId, false)
    ∧ getOrCreateCache lengthInSamples numChannels phaseIncrement timeStretchRat reversed
        startPos endPos false true true st = ⟨none, false, st, false⟩ := by
  constructor
  · set skip := skipOf lengthInSamples reversed startPos endPos with hskip
    set e : SampleCacheElement :=
      ⟨phaseIncrement, timeStretchRat, skip, if reversed then 1 else 0, st.nextId⟩ with he
    have hekey : e.key = keyWords phaseIncrement timeStretchRat skip reversed := by
      simp [SampleCacheElement.key, keyWords, he]
    have hcap2 : cachedByteCount lengthInSamples phaseIncrement timeStretchRat skip
        numChannels < 33554432 := by simpa [Nat.shiftLeft_eq] using hcap
    have h1 : getOrCreateCache lengthInSamples numChannels phaseIncrement timeStretchRat
        reversed startPos endPos true true true st
        = ⟨some st.nextId, true, ⟨insertAtKeyMultiWord e st.caches, st.nextId + 1⟩, true⟩ := by
      simp [getOrCreateCache, hmiss, ← hskip, hcap2, he]
    have hfound : searchMultiWordExact (insertAtKeyMultiWord e st.caches)
        (keyWords phaseIncrement timeStretchRat skip reversed) = some e := by
      rw [← hekey]
      exact searchMultiWordExact_insert e st.caches (hekey ▸ hmiss)
    have hrep : ∀ (m : Nat) (st2 : CacheStore),
        searchMultiWordExact st2.caches
          (keyWords phaseIncrement timeStretchRat skip reversed) = some e →
        (getOrCreateCacheRepeated lengthInSamples numChannels phaseIncrement timeStretchRat
          reversed startPos endPos true true m st2).1
          = List.replicate m (some st.nextId, false) := by
      intro m
      induction m with
      | zero => intro st2 _; simp [getOrCreateCacheRepeated]
      | succ k ihk =>
        intro st2 h2
        have hh := getOrCreateCache_hit lengthInSamples numChannels phaseIncrement
          timeStretchRat reversed startPos endPos true true true st2 e
          (by rw [← hskip]; exact h2)
        simp only [getOrCreateCacheRepeated, hh]
        have ecache : e.cache = st.nextId := rfl
        simp [ihk st2 h2, ecache, List.replicate_succ]
    simp only [getOrCreateCacheRepeated, h1]
    simp only [List.cons.injEq]
    exact ⟨trivial, hrep n ⟨insertAtKeyMultiWord e st.caches, st.nextId + 1⟩ hfound⟩
  · simp [getOrCreateCache, hmiss]

/-- Witness for `getOrCreateCache_key_uniqueness` at a concrete store. -/
theorem getOrCreateCache_key_uniqueness_witness :
    (getOrCreateCacheRepeated 1000 2 16777216 16777216 false 0 1000 true true 3 ⟨[], 0⟩).1
      = (some 0, true) :: List.replicate 2 (some 0, false)
    ∧ getOrCreateCache 1000 2 16777216 16777216 false 0 1000 false true true ⟨[], 0⟩
      = ⟨none, false, ⟨[], 0⟩, false⟩ :=
  getOrCreateCache_key_uniqueness 1000 2 16777216 16777216 false 0 1000 ⟨[], 0⟩ 2
    (by decide) (by decide)

/-- Claim C5 — a call whose computed cached-byte estimate reaches 32 MiB
and which does not hit an existing entry returns `none`, never reaches
the allocator, and inserts nothing (the store is returned unchanged). -/
theorem getOrCreateCache_size_cap (lengthInSamples numChannels : Int)
    (phaseIncrement timeStretchRat : Int) (reversed : Bool) (startPos endPos : Int)
    (mayCreate : Bool) (allocOK insertOK : Bool) (st : CacheStore)
    (hmiss : searchMultiWordExact st.caches
      (keyWords phaseIncrement timeStretchRat
        (skipOf lengthInSamples reversed startPos endPos) reversed) = none)
    (hcap : cachedByteCount lengthInSamples phaseIncrement timeStretchRat
      (skipOf lengthInSamples reversed startPos endPos) numChannels ≥ 32 <<< 20) :
    getOrCreateCache lengthInSamples numChannels phaseIncrement timeStretchRat reversed
      startPos endPos mayCreate allocOK insertOK st = ⟨none, false, st, false⟩ := by
  have hcap2 : 33554432 ≤ cachedByteCount lengthInSamples phaseIncrement timeStretchRat
      (skipOf lengthInSamples reversed startPos endPos) numChannels := by
    simpa [Nat.shiftLeft_eq] using hcap
  cases mayCreate with
  | false => simp [getOrCreateCache, hmiss]
  | true => simp [getOrCreateCache, hmiss, hcap2]

/-- Witness for `getOrCreateCache_size_cap`: a 12-minute stereo sample at
unity increments blows the 32 MiB estimate. -/
theorem getOrCreateCache_size_cap_witness :
    getOrCreateCache 33554432 2 16777216 16777216 false 0 33554432 true true true ⟨[], 0⟩
      = ⟨none, false, ⟨[], 0⟩, false⟩ :=
  getOrCreateCache_size_cap 33554432 2 16777216 16777216 false 0 33554432 true true true
    ⟨[], 0⟩ (by decide) (by decide)

/-- Ceiling division on `Nat`. -/
def ceilDiv (a b : Nat) : Nat := (a + b - 1) / b

/-- The entry-size formula exactly as claim C7 words it ("cachedSampleCount
= ceil(((lengthInSamples − skipSamplesAtStart) << 24) / combinedIncrement)
+ 1", plus the two ring-out paddings). Stated from the spec's words, for
comparison against `cachedSampleCount`, which is translated from the
code. -/
def cachedSampleCountClaimC7 (lengthInSamples phaseIncrement timeStretchRat skip : Int) : Nat :=
  let base := ceilDiv (toU32 (lengthInSamples - skip) <<< 24)
    (combinedIncrement phaseIncrement timeStretchRat) + 1
  let base := if phaseIncrement ≠ 16777216 then base + (kInterpolationMaxNumSamples >>> 1) else base
  if timeStretchRat ≠ 16777216 then base + 16384 else base

/-- Claim C7, counterexample — the code takes the *floor* of the 64-bit
division and then adds 1; the claim's *ceil*-then-add-1 differs whenever
the division is inexact. At `phaseIncrement` an octave up (2·2²⁴),
`timeStretchRatio` unity and 3 samples to cache, the code computes
floor(1.5)+1+8 = 10 but the claimed formula gives ceil(1.5)+1+8 = 11. -/
theorem cachedSampleCount_ne_claimC7 :
    cachedSampleCount 3 33554432 16777216 0
      ≠ cachedSampleCountClaimC7 3 33554432 16777216 0 := by
  decide

/-- Claim C7, amended — on a `getOrCreateCache` miss with `mayCreate`, the
cached-sample estimate is `combinedIncrement = (phaseIncrement ×
timeStretchRatio) >> 24` with a 64-bit intermediate, and
`cachedSampleCount = floor(((lengthInSamples − skipSamplesAtStart) << 24)
/ combinedIncrement) + 1`, plus half the interpolation window if
`phaseIncrement` is not unity and plus 16384 if `timeStretchRatio` is not
unity; this is what the cap comparison and the created entry use. -/
theorem cachedSampleCount_formula (lengthInSamples phaseIncrement timeStretchRat skip : Int) :
    cachedSampleCount lengthInSamples phaseIncrement timeStretchRat skip
      = (toU32 (lengthInSamples - skip) <<< 24)
          / ((toU32 phaseIncrement * toU32 timeStretchRat) >>> 24) + 1
        + (if phaseIncrement ≠ 16777216 then kInterpolationMaxNumSamples / 2 else 0)
        + (if timeStretchRat ≠ 16777216 then 16384 else 0) := by
  unfold cachedSampleCount combinedIncrement
  by_cases hp : phaseIncrement = 16777216 <;> by_cases ht : timeStretchRat = 16777216 <;>
    simp [hp, ht, Nat.shiftRight_eq_div_pow]

/-! ## Pitch-detection onset search (`Sample::determinePitch`) -/

/-- Two's-complement reduction of an `Int` into `int32_t` range. -/
def int32ofInt (a : Int) : Int :=
  (a + 2 ^ (31 : Nat)).emod (2 ^ (32 : Nat)) - 2 ^ (31 : Nat)

/-- Computation `absoluteValue = (v < 0) ? -v : v` on an `int32_t`
(`sample.cpp` line 1398); negating `INT32_MIN` wraps back to itself. -/
def absInt32 (v : Int) : Int :=
  if v < 0 then int32ofInt (-v) else v

/-- Fixed first-pass amplitude threshold
`startValueThreshold = 1 << (31 - 4)` (`sample.cpp` line 1311). -/
def startValueThresholdFixed : Int := 1 <<< 27

/-- Minimum "nontrivial" peak for a retry, `1 << (31 - 9)`
(`sample.cpp` line 1451). -/
def retryPeakMinimum : Int := 1 <<< 22

/-- One onset-scanning pass of `determinePitch` (`sample.cpp` lines
1396-1426): walk the individual (bit-masked) sample values, track the
biggest absolute value seen, and stop as soon as one reaches the
threshold. Returns whether an onset was found and the final
`biggestValueFound`. -/
def onsetScan (threshold : Int) : List Int → Int → Bool × Int
  | [], biggest => (false, biggest)
  | v :: rest, biggest =>
    let a := absInt32 v
    let biggest := if a > biggest then a else biggest
    if a < threshold then onsetScan threshold rest biggest
    else (true, biggest)

/-- Outcome of the onset-search portion of `determinePitch`: whether an
onset offset was established, how many scanning passes ran, and the
reduced threshold used by the retry pass, if one ran. -/
structure OnsetResult where
  found : Bool
  passes : Nat
  secondThreshold : Option Int
deriving Repr, DecidableEq

/-- Onset-search control flow of `Sample::determinePitch` (`sample.cpp`
lines 1310-1314 and 1446-1459): pass 1 scans with the fixed threshold;
if it fails and the observed peak is nontrivial (`>= 1 << 22`), exactly
one retry scans with `biggestValueFound >> 4`. -/
def determinePitchOnset (samples : List Int) : OnsetResult :=
  let pass1 := onsetScan startValueThresholdFixed samples 0
  if pass1.1 then ⟨true, 1, none⟩
  else if pass1.2 ≥ retryPeakMinimum then
    let threshold2 := sar pass1.2 4
    let pass2 := onsetScan threshold2 samples 0
    ⟨pass2.1, 2, some threshold2⟩
  else ⟨false, 1, none⟩

/-- The peak absolute value a completed (onset-less) scan observes. -/
def peakAbs (samples : List Int) : Int :=
  samples.foldl (fun acc v => max acc (absInt32 v)) 0

theorem onsetScan_found (threshold : Int) (samples : List Int) (b : Int)
    (h : ∃ v ∈ samples, threshold ≤ absInt32 v) :
    (onsetScan threshold samples b).1 = true := by
  induction samples generalizing b with
  | nil => simp at h
  | cons x rest ih =>
    obtain ⟨v, hv, hle⟩ := h
    simp only [onsetScan]
    by_cases hx : absInt32 x < threshold
    · have : v ∈ rest := by
        rcases List.mem_cons.mp hv with h1 | h1
        · exact absurd hle (by rw [h1]; exact not_le.mpr hx)
        · exact h1
      simp only [hx, if_true]
      exact ih _ ⟨v, this, hle⟩
    · simp [hx]

theorem onsetScan_not_found (threshold : Int) (samples : List Int) (b : Int)
    (h : ∀ v ∈ samples, absInt32 v < threshold) :
    onsetScan threshold samples b
      = (false, samples.foldl (fun acc v => max acc (absInt32 v)) b) := by
  induction samples generalizing b with
  | nil => simp [onsetScan]
  | cons x rest ih =>
    have hx := h x (by simp)
    simp only [onsetScan, hx, if_true, List.foldl_cons]
    rw [ih _ (fun v hv => h v (by simp [hv]))]
    congr 1
    by_cases hc : absInt32 x > b
    · simp [hc, max_eq_right (le_of_lt hc)]
    · simp [hc, max_eq_left (le_of_not_lt hc)]

theorem peakAbs_attained (samples : List Int) (h : 0 < peakAbs samples) :
    ∃ v ∈ samples, absInt32 v = peakAbs samples := by
  have key : ∀ (l : List Int) (b : Int),
      l.foldl (fun acc v => max acc (absInt32 v)) b = b
        ∨ ∃ v ∈ l, absInt32 v = l.foldl (fun acc v => max acc (absInt32 v)) b := by
    intro l
    induction l with
    | nil => exact fun b => Or.inl rfl
    | cons x rest ih =>
      intro b
      by_cases hc : absInt32 x ≤ b
      · rcases ih (max b (absInt32 x)) with h1 | h1
        · left
          simpa [List.foldl_cons, max_eq_left hc] using h1
        · right
          obtain ⟨v, hv, hveq⟩ := h1
          exact ⟨v, by simp [hv], by simpa [List.foldl_cons] using hveq⟩
      · rcases ih (max b (absInt32 x)) with h1 | h1
        · right
          refine ⟨x, by simp, ?_⟩
          have hfold : (x :: rest).foldl (fun acc v => max acc (absInt32 v)) b
              = max b (absInt32 x) := by simpa [List.foldl_cons] using h1
          rw [hfold, max_eq_right (le_of_not_le hc)]
        · right
          obtain ⟨v, hv, hveq⟩ := h1
          exact ⟨v, by simp [hv], by simpa [List.foldl_cons] using hveq⟩
  rcases key samples 0 with h1 | h1
  · rw [peakAbs] at h
    omega
  · exact h1

theorem sar_le_self_of_nonneg (a : Int) (h : 0 ≤ a) (k : Nat) : sar a k ≤ a := by
  obtain ⟨m, rfl⟩ := Int.eq_ofNat_of_zero_le h
  show sar (Int.ofNat m) k ≤ Int.ofNat m
  rw [sar_nonneg_eq]
  exact Int.ofNat_le.mpr (Nat.div_le_self m (2 ^ k))

theorem peakAbs_nonneg (samples : List Int) : 0 ≤ peakAbs samples := by
  have key : ∀ (l : List Int) (b : Int),
      b ≤ l.foldl (fun acc v => max acc (absInt32 v)) b := by
    intro l
    induction l with
    | nil => intro b; simp
    | cons x rest ih =>
      intro b
      calc b ≤ max b (absInt32 x) := le_max_left _ _
      _ ≤ _ := by simpa [List.foldl_cons] using ih (max b (absInt32 x))
  exact key samples 0

theorem onsetScan_complete (threshold : Int) (samples : List Int)
    (h : ∀ v ∈ samples, absInt32 v < threshold) :
    onsetScan threshold samples 0 = (false, peakAbs samples) := by
  rw [onsetScan_not_found threshold samples 0 h]
  rfl

/-- Claim C8 — onset search of `determinePitch`: pass 1 uses the fixed
threshold `1 << 27` and succeeds whenever some sample's absolute value
reaches it; if no sample reaches the fixed threshold but the observed
peak is at least `1 << 22`, exactly one retry pass runs with threshold
`peak >> 4` and that retry finds an onset; if the peak is below `1 <<
22`, no retry runs and the search fails. -/
theorem determinePitch_onset_retry (samples : List Int) :
    ((∃ v ∈ samples, startValueThresholdFixed ≤ absInt32 v) →
      determinePitchOnset samples = ⟨true, 1, none⟩)
    ∧ ((∀ v ∈ samples, absInt32 v < startValueThresholdFixed) →
        retryPeakMinimum ≤ peakAbs samples →
        determinePitchOnset samples = ⟨true, 2, some (sar (peakAbs samples) 4)⟩)
    ∧ ((∀ v ∈ samples, absInt32 v < startValueThresholdFixed) →
        peakAbs samples < retryPeakMinimum →
        determinePitchOnset samples = ⟨false, 1, none⟩) := by
  refine ⟨?_, ?_, ?_⟩
  · intro h
    simp [determinePitchOnset, onsetScan_found startValueThresholdFixed samples 0 h]
  · intro hall hpeak
    have hscan := onsetScan_complete startValueThresholdFixed samples hall
    have hpos : 0 < peakAbs samples := lt_of_lt_of_le (by decide) hpeak
    obtain ⟨v, hv, hveq⟩ := peakAbs_attained samples hpos
    have hfound2 : (onsetScan (sar (peakAbs samples) 4) samples 0).1 = true :=
      onsetScan_found _ samples 0
        ⟨v, hv, by rw [hveq]; exact sar_le_self_of_nonneg _ (peakAbs_nonneg samples) 4⟩
    simp [determinePitchOnset, hscan, hpeak, hfound2]
  · intro hall hpeak
    have hscan := onsetScan_complete startValueThresholdFixed samples hall
    simp [determinePitchOnset, hscan, not_le.mpr hpeak]

/-- Witness for `determinePitch_onset_retry`: a loud sample (2²⁸) found on
pass 1; a quieter one (2²³) found via the retry at threshold 2¹⁹; a near
silent one (5) failing with a single pass. -/
theorem determinePitch_onset_retry_witness :
    determinePitchOnset [0, 268435456] = ⟨true, 1, none⟩
    ∧ determinePitchOnset [0, -8388608] = ⟨true, 2, some 524288⟩
    ∧ determinePitchOnset [5] = ⟨false, 1, none⟩ := by
  refine ⟨?_, ?_, ?_⟩
  · exact (determinePitch_onset_retry [0, 268435456]).1 (by decide)
  · have h := (determinePitch_onset_retry [0, -8388608]).2.1 (by decide) (by decide)
    simpa using h
  · exact (determinePitch_onset_retry [5]).2.2 (by decide) (by decide)

/-! ## Percussive envelope cache: data model -/

/-- Constant `kPercBufferReductionMagnitude`. Modelled from the spec: the
fixed reduction shift turning source positions into envelope byte indices
(the defining header is not under `src/`). -/
def kPercBufferReductionMagnitude : Nat := 7

/-- Constant `kPercBufferReductionSize = 1 << kPercBufferReductionMagnitude`. -/
def kPercBufferReductionSize : Int := 128

/-- Number of one-pole smoothing stages in a zone's cascade. Modelled
from the spec: "a fixed small cascade of low-pass accumulator values"
(the zone class header is not under `src/`; the cascade length does not
affect any claim). -/
def kNumAngleLPFStages : Nat := 2

/-- One percussive cache zone (`SamplePercCacheZone`; its header is not
under `src/`, the fields are exactly those `sample.cpp` manipulates and
the spec describes: the covered half-open interval, the provisional
prefix count, and the resumable filter state). -/
structure SamplePercCacheZone where
  startPos : Int
  endPos : Int
  samplesAtStartWhichShouldBeReplaced : Int
  lastSampleRead : Int
  lastAngle : Int
  angleLPFMem : List Int
deriving Repr, DecidableEq

/-- Zone constructor `SamplePercCacheZone(newStartPos)`. Modelled from
the spec: a zone is "created when envelope computation begins at a
previously-uncovered position", empty (`endPos = startPos`) with cleared
resumable filter state and no provisional prefix. -/
def SamplePercCacheZone.fresh (newStartPos : Int) : SamplePercCacheZone :=
  ⟨newStartPos, newStartPos, 0, 0, 0, List.replicate kNumAngleLPFStages 0⟩

/-- Operation `resetEndPos(newEndPos)` (used by the eviction trim).
Modelled from the spec: the resumable filter state describes the data at
the old end position, so trimming the end discards it. -/
def SamplePercCacheZone.resetEndPos (z : SamplePercCacheZone) (newEndPos : Int) :
    SamplePercCacheZone :=
  { z with
    endPos := newEndPos
    lastSampleRead := 0
    lastAngle := 0
    angleLPFMem := List.replicate kNumAngleLPFStages 0 }

/-- Index of the first zone whose `startPos` is at least `key` (the
`GREATER_OR_EQUAL` search of the ordered zone array; `LESS` returns this
minus one). Modelled from the spec: "ordered dynamic array with
position-based binary search" (container class not under `src/`). -/
def zoneFirstGE : List SamplePercCacheZone → Int → Int
  | [], _ => 0
  | z :: rest, key => if z.startPos ≥ key then 0 else zoneFirstGE rest key + 1

/-- Search with the `LESS` comparison: rightmost zone with
`startPos < key`, `-1` if none. -/
def zoneSearchLess (zones : List SamplePercCacheZone) (key : Int) : Int :=
  zoneFirstGE zones key - 1

/-- Element lookup guarded the way the code guards indices
(`i >= 0 && i < getNumElements()`). -/
def zoneAt (zones : List SamplePercCacheZone) (i : Int) : Option SamplePercCacheZone :=
  if 0 ≤ i then zones[i.toNat]? else none

/-- In-place mutation of the element at index `i`. -/
def zonesSet (zones : List SamplePercCacheZone) (i : Int) (z : SamplePercCacheZone) :
    List SamplePercCacheZone :=
  if 0 ≤ i then zones.set i.toNat z else zones

/-- Operation `insertAtIndex(i)` followed by placement-new of the zone. -/
def zonesInsertAt (zones : List SamplePercCacheZone) (i : Int) (z : SamplePercCacheZone) :
    List SamplePercCacheZone :=
  zones.take i.toNat ++ z :: zones.drop i.toNat

/-- Operation `deleteAtIndex(i, count)`. -/
def zonesDeleteAt (zones : List SamplePercCacheZone) (i count : Int) :
    List SamplePercCacheZone :=
  zones.take i.toNat ++ zones.drop (i.toNat + count.toNat)

/-- Static description of one `Sample` as the perc cache and pitch code
see it: lengths, channel layout, and the cluster geometry of the backing
file (`audioFileManager.clusterSizeMagnitude` is runtime state of the
collaborating file manager). -/
structure SampleCfg where
  lengthInSamples : Int
  audioDataStartPosBytes : Int
  numChannels : Int
  byteDepth : Int
  numClusters : Int
  clusterSizeMagnitude : Nat
deriving Repr, DecidableEq

def SampleCfg.bytesPerSample (c : SampleCfg) : Int := c.numChannels * c.byteDepth

def SampleCfg.clusterSize (c : SampleCfg) : Int := 2 ^ c.clusterSizeMagnitude

/-- Value `audioDataLengthBytes`; after `finalizeAfterLoad` (`sample.cpp`
lines 1728-1729) it is exactly `lengthInSamples * bytesPerSample`. -/
def SampleCfg.audioDataLengthBytes (c : SampleCfg) : Int :=
  c.lengthInSamples * c.bytesPerSample

/-- Function `getFirstClusterIndexWithAudioData` (`sample.cpp` line 995). -/
def SampleCfg.firstClusterWithAudioData (c : SampleCfg) : Int :=
  sar c.audioDataStartPosBytes c.clusterSizeMagnitude

/-- Function `getFirstClusterIndexWithNoAudioData` (`sample.cpp` line 999). -/
def SampleCfg.firstClusterWithNoAudioData (c : SampleCfg) : Int :=
  min (sar (c.audioDataStartPosBytes + c.audioDataLengthBytes - 1) c.clusterSizeMagnitude + 1)
    c.numClusters

/-- One direction's percussive cache state: the ordered zone array, the
two storage variants (flat buffer pointer / sparse cluster-pointer
array), and which perc cluster slots currently hold a cluster. -/
structure PercCacheState where
  zones : List SamplePercCacheZone
  percCacheMemoryAllocated : Bool
  percCacheClustersAllocated : Bool
  numPercCacheClusters : Int
  percCluster : Int → Bool

/-! ## Percussive envelope cache: the streaming filter -/

/-- Resumable filter state carried by a zone while samples stream. -/
structure SegmentState where
  lastSampleRead : Int
  lastAngle : Int
  angleLPFMem : List Int
deriving Repr, DecidableEq

/-- One pass of the rectified difference through the one-pole cascade
(`sample.cpp` lines 628-633): each stage moves toward the incoming value
by a 1/512 step and feeds the next stage. Returns the final smoothed
angle and the updated stage values. -/
def poleStep (angle : Int) : List Int → Int × List Int
  | [] => (angle, [])
  | p :: rest =>
    let p2 := p + sar (angle - p) 9
    let r := poleStep p2 rest
    (r.1, p2 :: r.2)

/-- The channel-summed, `>> 2`-scaled raw sample value read at source
sample position `pos` (`sample.cpp` lines 615-620). `read32` gives the
`int32_t` a 4-byte load at a file byte address yields (cluster overlap
regions mirror the file, so absolute addressing is faithful). -/
def readSampleValue (cfg : SampleCfg) (read32 : Int → Int) (pos : Int) : Int :=
  let addr := cfg.audioDataStartPosBytes + pos * cfg.bytesPerSample - 4 + cfg.byteDepth
  let v := sar (int32ofInt (read32 addr)) 2
  if cfg.numChannels = 2 then v + sar (int32ofInt (read32 (addr + cfg.byteDepth))) 2 else v

/-- The innermost streaming loop (`sample.cpp` lines 613-641) over one
perc-pixel segment of `n` samples, the first at position `pos`:
`lastAngle` is updated after every sample except the run's last one.
Returns the updated state and the final smoothed angle. -/
def processSegmentSamples (cfg : SampleCfg) (read32 : Int → Int) (pd : Int) :
    Nat → Int → SegmentState → SegmentState × Int
  | 0, _, st => (st, 0)
  | 1, pos, st =>
    let v := readSampleValue cfg read32 pos
    let a0 := v - st.lastSampleRead
    let a1 := if a0 < 0 then -a0 else a0
    let r := poleStep a1 st.angleLPFMem
    (⟨v, st.lastAngle, r.2⟩, r.1)
  | n + 2, pos, st =>
    let v := readSampleValue cfg read32 pos
    let a0 := v - st.lastSampleRead
    let a1 := if a0 < 0 then -a0 else a0
    let r := poleStep a1 st.angleLPFMem
    processSegmentSamples cfg read32 pd (n + 1) (pos + pd) ⟨v, r.1, r.2⟩

/-- Reduction of an `Int` to the `Nat` a C cast to `uint64_t` produces. -/
def toU64 (a : Int) : Nat :=
  (a.emod (2 ^ (64 : Nat))).toNat

/-- Function `getTanH<23>` (`util/functions.h`, not under `src/`).
Modelled from the spec: "a saturating nonlinearity applied to the
normalized smoothed-angle delta"; modelled as hard saturation onto the
output byte range (no claim depends on its exact shape). -/
def getTanH23 (x : Int) : Int :=
  min (max x 0) 255

/-- The percussiveness output byte derived at a segment boundary
(`sample.cpp` lines 649-658): `difference` is the rectified angle delta,
the division runs in `uint64_t` (dividing by zero here is undefined
behaviour in C), and the store into the `uint8_t` buffer keeps the low
eight bits. -/
def percByte (angle lastAngle : Int) : Int :=
  let d0 := angle - lastAngle
  let difference := if d0 < 0 then -d0 else d0
  let percussiveness := int32ofInt (Int.ofNat ((toU64 difference * 262144 / toU64 angle) >>> 1))
  lowBits (getTanH23 percussiveness) 8

/-- One recorded envelope store: destination byte index, stored byte, and
the operands of the percussiveness division (kept so that theorems can
speak about the divisor). -/
structure PercWrite where
  index : Int
  value : Int
  angle : Int
  lastAngle : Int
deriving Repr, DecidableEq

/-- The per-source-cluster run (`sample.cpp` lines 594-664): chop the run
of `count` samples starting at `pos` into perc-pixel segments, stream
each through the filter, and emit one output byte whenever a segment ends
on a pixel midpoint. `fuel` only bounds recursion; every iteration
consumes at least one sample, so `count.toNat` fuel suffices. -/
def runSegments (cfg : SampleCfg) (read32 : Int → Int) (pd : Int) (reversed : Bool) :
    Nat → Int → Int → SamplePercCacheZone → List PercWrite →
      SamplePercCacheZone × Int × List PercWrite
  | 0, _, pos, zone, ws => (zone, pos, ws)
  | fuel + 1, count, pos, zone, ws =>
    if count ≤ 0 then (zone, pos, ws)
    else
      let segLeft0 := if reversed then lowBits (pos + 1 + (kPercBufferReductionSize / 2)) kPercBufferReductionMagnitude
        else kPercBufferReductionSize - lowBits (pos + (kPercBufferReductionSize / 2)) kPercBufferReductionMagnitude
      let segLeft := if segLeft0 = 0 then kPercBufferReductionSize else segLeft0
      let seg := min count segLeft
      let r := processSegmentSamples cfg read32 pd seg.toNat pos
        ⟨zone.lastSampleRead, zone.lastAngle, zone.angleLPFMem⟩
      let pos2 := pos + seg * pd
      let angle := r.2
      let doWrite := lowBits pos2 kPercBufferReductionMagnitude
        = kPercBufferReductionSize / 2 - (if reversed then 1 else 0)
      let ws2 := if doWrite then
          ws ++ [⟨sar pos2 kPercBufferReductionMagnitude, percByte angle r.1.lastAngle,
            angle, r.1.lastAngle⟩]
        else ws
      let zone2 := { zone with
        lastSampleRead := r.1.lastSampleRead
        lastAngle := angle
        angleLPFMem := r.1.angleLPFMem }
      runSegments cfg read32 pd reversed fuel (count - seg) pos2 zone2 ws2

/-- Why `fillPercCache`'s streaming stopped before its target, when it
did. -/
inductive FillAbort
  | outOfAudioData
  | percClusterAllocFailed
  | sourceClusterMissing
  | fuelExhausted
deriving Repr, DecidableEq

/-- Result of the streaming loop: the zone as mutated so far (partial
progress stays committed), the positions reached, the perc cluster slots
(fresh allocations stay), the emitted bytes, the error code, and the
abort cause if the loop did not complete. -/
structure FillLoopOut where
  zone : SamplePercCacheZone
  startPos : Int
  sourceBytePos : Int
  percCluster : Int → Bool
  writes : List PercWrite
  error : Int
  abort : Option FillAbort

/-- The per-cluster streaming loop of `fillPercCache` (`sample.cpp` lines
513-666): per iteration, bail out if the source position has left the
audio data; allocate the destination perc cluster on first touch (a
failed allocation aborts with `ERROR_INSUFFICIENT_RAM`); bail out (with
no error) if the source cluster is not resident; limit the run to the
destination and source cluster boundaries; commit the run's extension to
`endPos` and stream it. `fuel = numSamples.toNat` suffices since every
iteration processes at least one sample. -/
def fillLoop (cfg : SampleCfg) (read32 : Int → Int) (clusterLoaded : Int → Bool)
    (percClusterAllocOK : Int → Bool) (pd : Int) (reversed percCacheDoneWithClusters : Bool) :
    Nat → Int → Int → Int → SamplePercCacheZone → (Int → Bool) → List PercWrite → FillLoopOut
  | 0, _, pos, srcByte, zone, pc, ws => ⟨zone, pos, srcByte, pc, ws, NO_ERROR, some .fuelExhausted⟩
  | fuel + 1, numSamples, pos, srcByte, zone, pc, ws =>
    let sourceClusterIndex := sar srcByte cfg.clusterSizeMagnitude
    if sourceClusterIndex ≥ cfg.firstClusterWithNoAudioData
        ∨ sourceClusterIndex < cfg.firstClusterWithAudioData then
      ⟨zone, pos, srcByte, pc, ws, NO_ERROR, some .outOfAudioData⟩
    else
      let percClusterIndex := sar pos (cfg.clusterSizeMagnitude + kPercBufferReductionMagnitude)
      if percCacheDoneWithClusters ∧ ¬ pc percClusterIndex
          ∧ ¬ percClusterAllocOK percClusterIndex then
        ⟨zone, pos, srcByte, pc, ws, ERROR_INSUFFICIENT_RAM, some .percClusterAllocFailed⟩
      else
        let pc2 := if percCacheDoneWithClusters ∧ ¬ pc percClusterIndex then
            (fun j => if j = percClusterIndex then true else pc j)
          else pc
        let n1 := if percCacheDoneWithClusters then
            let posWithinPercClusterBig :=
              lowBits pos (cfg.clusterSizeMagnitude + kPercBufferReductionMagnitude)
            let samplesLeftThisDestCluster := if reversed then posWithinPercClusterBig + 1
              else cfg.clusterSize * kPercBufferReductionSize - posWithinPercClusterBig
            min numSamples samplesLeftThisDestCluster
          else numSamples
        if ¬ clusterLoaded sourceClusterIndex then
          ⟨zone, pos, srcByte, pc2, ws, NO_ERROR, some .sourceClusterMissing⟩
        else
          let bytePosWithinCluster := lowBits srcByte cfg.clusterSizeMagnitude
          let bytesLeftThisSourceCluster := if reversed then
              bytePosWithinCluster + cfg.bytesPerSample
            else cfg.clusterSize - bytePosWithinCluster + cfg.bytesPerSample - 1
          let n2 := if n1 * cfg.bytesPerSample > bytesLeftThisSourceCluster + cfg.bytesPerSample
            then bytesLeftThisSourceCluster / cfg.bytesPerSample else n1
          let r := runSegments cfg read32 pd reversed n2.toNat n2 pos
            { zone with endPos := zone.endPos + n2 * pd } ws
          let numSamples2 := numSamples - n2
          let srcByte2 := srcByte + n2 * cfg.bytesPerSample * pd
          if numSamples2 = 0 then
            ⟨r.1, r.2.1, srcByte2, pc2, r.2.2, NO_ERROR, none⟩
          else
            fillLoop cfg read32 clusterLoaded percClusterAllocOK pd reversed
              percCacheDoneWithClusters fuel numSamples2 r.2.1 srcByte2 r.1 pc2 r.2.2

/-- Overall result of one `fillPercCache` call. -/
structure FillResult where
  state : PercCacheState
  error : Int
  writes : List PercWrite
  abort : Option FillAbort

/-- The cleanup at label `getOut` (`sample.cpp` lines 701-705): if the
zone the call worked on ended up zero-length, delete it. The index `i`
names the array slot the zone pointer refers to (after an absorbing
delete this slot holds the merged zone, exactly as the C pointer
does). -/
def finishGetOut (st : PercCacheState) (i : Int) : PercCacheState :=
  match zoneAt st.zones i with
  | some z => if z.endPos = z.startPos then { st with zones := zonesDeleteAt st.zones i 1 } else st
  | none => st

/-- Clamping of the target end position (`sample.cpp` lines 471-504): to
the waveform bounds, to `maxNumSamplesToProcess`, and to the next zone's
provisional-prefix boundary. -/
structure FillTarget where
  endPosSamples : Int
  willHit : Bool
  endPosLimit : Int
deriving Repr, DecidableEq

def fillComputeTarget (cfg : SampleCfg) (pd : Int) (reversed : Bool)
    (zones : List SamplePercCacheZone) (i startPos endPosSamples0 maxNum : Int) : FillTarget :=
  let endPos1 := if ¬ reversed then min endPosSamples0 cfg.lengthInSamples
    else max endPosSamples0 (-1)
  let limit0 := startPos + maxNum * pd
  let endPos2 := if (endPos1 - limit0) * pd ≥ 0 then limit0 else endPos1
  let nextOpt := zoneAt zones (i + pd)
  let willHit := match nextOpt with
    | some nz => decide ((endPos2 - nz.startPos) * pd ≥ 0)
    | none => false
  let endPosLimit := match nextOpt with
    | some nz => nz.startPos + nz.samplesAtStartWhichShouldBeReplaced * pd
    | none => 0
  let endPos3 := if willHit = true ∧ (endPos2 - endPosLimit) * pd ≥ 0 then endPosLimit else endPos2
  ⟨endPos3, willHit, endPosLimit⟩

/-- The post-stream fix-ups (`sample.cpp` lines 668-705) when the
streaming loop completed: set the zone's provisional prefix, then absorb
or trim the following zone if the extension met it, and finally delete
the worked-on zone if it stayed empty. -/
def fillFinish (pd : Int) (i : Int) (t : FillTarget) (zoneDone : SamplePercCacheZone)
    (pc : Int → Bool) (st : PercCacheState) : PercCacheState :=
  let newSamplesAtStart := max 2048 ((zoneDone.endPos - zoneDone.startPos) * pd)
  let zone2 := { zoneDone with samplesAtStartWhichShouldBeReplaced := newSamplesAtStart }
  let st2 := { st with zones := zonesSet st.zones i zone2, percCluster := pc }
  let st3 :=
    if t.willHit then
      if (t.endPosSamples - t.endPosLimit) * pd ≥ 0 then
        match zoneAt st2.zones (i + pd) with
        | some nz =>
          let nz2 := { nz with
            startPos := zone2.startPos
            samplesAtStartWhichShouldBeReplaced := zone2.samplesAtStartWhichShouldBeReplaced }
          { st2 with zones := zonesDeleteAt (zonesSet st2.zones (i + pd) nz2) i 1 }
        | none => st2
      else
        match zoneAt st2.zones (i + pd) with
        | some nz =>
          let nz2 := { nz with
            samplesAtStartWhichShouldBeReplaced := nz.samplesAtStartWhichShouldBeReplaced
              - (t.endPosSamples - nz.startPos) * pd
            startPos := t.endPosSamples }
          { st2 with zones := zonesSet st2.zones (i + pd) nz2 }
        | none => st2
    else st2
  finishGetOut st3 i

/-- Assembly of the call result from the streaming loop's outcome: on an
abort only the committed zone extension and fresh perc clusters are kept
(plus the empty-zone cleanup); on completion the fix-ups run. -/
def fillAssemble (pd i : Int) (t : FillTarget) (st : PercCacheState) (r : FillLoopOut) :
    FillResult :=
  match r.abort with
  | some a =>
    let st2 := { st with zones := zonesSet st.zones i r.zone, percCluster := r.percCluster }
    ⟨finishGetOut st2 i, r.error, r.writes, some a⟩
  | none =>
    ⟨fillFinish pd i t r.zone r.percCluster st, NO_ERROR, r.writes, none⟩

/-- Continuation of `fillPercCache` from label `doLoading` (`sample.cpp`
lines 461-716): clamp the target end position, stream, then assemble the
result. `i` indexes the zone being extended (already inserted if it was
new). -/
def fillFromZone (cfg : SampleCfg) (read32 : Int → Int) (clusterLoaded : Int → Bool)
    (percClusterAllocOK : Int → Bool) (pd : Int) (reversed percCacheDoneWithClusters : Bool)
    (i : Int) (startPos endPosSamples0 maxNum : Int) (st : PercCacheState) : FillResult :=
  let zone := (zoneAt st.zones i).getD (SamplePercCacheZone.fresh startPos)
  let t := fillComputeTarget cfg pd reversed st.zones i startPos endPosSamples0 maxNum
  let numSamples := (t.endPosSamples - startPos) * pd
  if numSamples ≤ 0 then
    ⟨finishGetOut st i, NO_ERROR, [], none⟩
  else
    let sourceBytePos := cfg.audioDataStartPosBytes + startPos * cfg.bytesPerSample
    fillAssemble pd i t st (fillLoop cfg read32 clusterLoaded percClusterAllocOK pd reversed
      percCacheDoneWithClusters numSamples.toNat numSamples startPos sourceBytePos zone
      st.percCluster [])

/-- Value `lengthInSamplesAfterReduction` (`sample.cpp` lines 298-299). -/
def lengthAfterReduction (cfg : SampleCfg) : Int :=
  max (sar (cfg.lengthInSamples - 1) kPercBufferReductionMagnitude + 1) 1

/-- Value `percCacheDoneWithClusters` (`sample.cpp` line 301): large
samples use sparse cluster storage, small ones one flat buffer. -/
def percCacheDoneWithClustersOf (cfg : SampleCfg) : Bool :=
  decide (lengthAfterReduction cfg ≥ sar cfg.clusterSize 1)

/-- Lazily allocate this direction's storage on first use (`sample.cpp`
lines 303-331), successful-allocation case. -/
def fillStorageAlloc (cfg : SampleCfg) (st : PercCacheState) : PercCacheState :=
  if percCacheDoneWithClustersOf cfg ∧ ¬ st.percCacheClustersAllocated then
    { st with
      percCacheClustersAllocated := true
      numPercCacheClusters := sar (lengthAfterReduction cfg - 1) cfg.clusterSizeMagnitude + 1
      percCluster := fun _ => false }
  else if ¬ percCacheDoneWithClustersOf cfg ∧ ¬ st.percCacheMemoryAllocated then
    { st with percCacheMemoryAllocated := true }
  else st

/-- The zone-creation path of `fillPercCache` (`sample.cpp` lines
445-459): insert a fresh zone after (forward) or at (reversed) the
search position and stream into it. -/
def fillCreateZone (cfg : SampleCfg) (read32 : Int → Int) (clusterLoaded : Int → Bool)
    (percClusterAllocOK : Int → Bool) (insertOK : Bool) (pd : Int) (reversed : Bool)
    (i0 startPosSamples0 endPosSamples0 maxNum : Int) (st1 : PercCacheState) : FillResult :=
  let i1 := if ¬ reversed then i0 + 1 else i0
  if ¬ insertOK then ⟨st1, ERROR_INSUFFICIENT_RAM, [], none⟩
  else
    let st2 := { st1 with
      zones := zonesInsertAt st1.zones i1 (SamplePercCacheZone.fresh startPosSamples0) }
    fillFromZone cfg read32 clusterLoaded percClusterAllocOK pd reversed
      (percCacheDoneWithClustersOf cfg) i1 startPosSamples0 endPosSamples0 maxNum st2

/-- Directional zone search and slack-merge decision of `fillPercCache`
(`sample.cpp` lines 336-459), running on the storage-initialised state. -/
def fillAfterStorage (cfg : SampleCfg) (read32 : Int → Int) (clusterLoaded : Int → Bool)
    (percClusterAllocOK : Int → Bool) (insertOK : Bool) (pd : Int) (reversed : Bool)
    (startPosSamples0 endPosSamples0 maxNum : Int) (st1 : PercCacheState) : FillResult :=
  let i0 := if ¬ reversed then zoneSearchLess st1.zones (startPosSamples0 + 1)
    else zoneFirstGE st1.zones startPosSamples0
  match zoneAt st1.zones i0 with
  | some z =>
    if (z.endPos - startPosSamples0) * pd ≥ -2048 then
      if (¬ reversed ∧ z.endPos ≥ cfg.lengthInSamples) ∨ (reversed ∧ z.endPos < 0) then
        ⟨st1, NO_ERROR, [], none⟩
      else if (z.endPos - endPosSamples0) * pd ≥ 0 then
        ⟨st1, NO_ERROR, [], none⟩
      else
        fillFromZone cfg read32 clusterLoaded percClusterAllocOK pd reversed
          (percCacheDoneWithClustersOf cfg) i0 z.endPos endPosSamples0 maxNum st1
    else
      fillCreateZone cfg read32 clusterLoaded percClusterAllocOK insertOK pd reversed
        i0 startPosSamples0 endPosSamples0 maxNum st1
  | none =>
    fillCreateZone cfg read32 clusterLoaded percClusterAllocOK insertOK pd reversed
      i0 startPosSamples0 endPosSamples0 maxNum st1

/-- Function `Sample::fillPercCache` (`sample.cpp` lines 272-716) for one
direction's state. `storageAllocOK` answers the storage allocation on
first use, `percClusterAllocOK` each on-demand perc cluster allocation,
`insertOK` the zone-array insertion, `clusterLoaded` tells which source
clusters are resident; `read32` is the decoded audio. (The calls into
the time stretcher only manage cluster pins and are outside the modelled
state.) -/
def fillPercCache (cfg : SampleCfg) (read32 : Int → Int) (clusterLoaded : Int → Bool)
    (storageAllocOK : Bool) (percClusterAllocOK : Int → Bool) (insertOK : Bool)
    (playDirection startPosSamples0 endPosSamples0 maxNumSamplesToProcess : Int)
    (st : PercCacheState) : FillResult :=
  let reversed := playDirection ≠ 1
  if (¬ reversed ∧ startPosSamples0 ≥ cfg.lengthInSamples)
      ∨ (reversed ∧ startPosSamples0 < 0) then
    ⟨st, NO_ERROR, [], none⟩
  else if percCacheDoneWithClustersOf cfg ∧ ¬ st.percCacheClustersAllocated
      ∧ ¬ storageAllocOK then
    ⟨st, ERROR_INSUFFICIENT_RAM, [], none⟩
  else if ¬ percCacheDoneWithClustersOf cfg ∧ ¬ st.percCacheMemoryAllocated
      ∧ ¬ storageAllocOK then
    ⟨st, ERROR_INSUFFICIENT_RAM, [], none⟩
  else
    fillAfterStorage cfg read32 clusterLoaded percClusterAllocOK insertOK playDirection
      reversed startPosSamples0 endPosSamples0 maxNumSamplesToProcess
      (fillStorageAlloc cfg st)

/-- Second half of `percCacheClusterStolen` (`sample.cpp` lines
964-991): trim the start of a later zone still reaching past the stolen
range, then delete every zone lying wholly inside it. -/
def percCacheStolenLater (st : PercCacheState) (pd rev01 : Int)
    (reversed : Bool) (iEarlier laterBorder : Int) : PercCacheState :=
  let iLater := if reversed then zoneFirstGE st.zones (laterBorder + rev01)
    else zoneSearchLess st.zones (laterBorder + rev01)
  let trimmed :=
    if (iLater - iEarlier) * pd > 0 then
      match zoneAt st.zones iLater with
      | some zoneLater =>
        if (zoneLater.endPos - laterBorder) * pd > 0 then
          some (zonesSet st.zones iLater { zoneLater with
            samplesAtStartWhichShouldBeReplaced := max 0
              (zoneLater.samplesAtStartWhichShouldBeReplaced
                - (laterBorder - zoneLater.startPos) * pd)
            startPos := laterBorder })
        else none
      | none => none
    else none
  let zones2 := trimmed.getD st.zones
  let iLater2 := if trimmed.isSome then iLater else iLater + pd
  let numToDelete := (iLater2 - iEarlier) * pd - 1
  if numToDelete ≠ 0 then
    let deleteFrom := if reversed then iLater2 + 1 else iEarlier + 1
    { st with zones := zonesDeleteAt zones2 deleteFrom numToDelete }
  else
    { st with zones := zones2 }

/-- Function `Sample::percCacheClusterStolen` (`sample.cpp` lines
882-993): clear the stolen slot; split, trim or delete the zones that
referenced the evicted range. `insertOK` answers the zone-array
insertion the splitting path needs. -/
def percCacheClusterStolen (cfg : SampleCfg) (insertOK : Bool) (reversed : Bool)
    (clusterIndex : Int) (st : PercCacheState) : PercCacheState :=
  let pd : Int := if reversed then -1 else 1
  let rev01 : Int := if reversed then 1 else 0
  let st := { st with percCluster := fun j => if j = clusterIndex then false else st.percCluster j }
  let bigShift : Nat := cfg.clusterSizeMagnitude + kPercBufferReductionMagnitude
  let leftBorder := clusterIndex * 2 ^ bigShift
  let rightBorder := (clusterIndex + 1) * 2 ^ bigShift
  let laterBorder := if reversed then leftBorder - 1 else rightBorder
  let earlierBorder := if reversed then rightBorder - 1 else leftBorder
  let searchAt := fun (key : Int) => if reversed then zoneFirstGE st.zones key
    else zoneSearchLess st.zones key
  let iEarlier := searchAt (earlierBorder + rev01)
  match zoneAt st.zones iEarlier with
  | some zoneEarlier =>
    if (zoneEarlier.endPos - earlierBorder) * pd > 0 then
      if (zoneEarlier.endPos - laterBorder) * pd > 0 then
        -- the zone shoots out both sides of the stolen cluster: split it
        let zones2 := zonesSet st.zones iEarlier { zoneEarlier with
          startPos := laterBorder
          samplesAtStartWhichShouldBeReplaced := 0 }
        let iNew := if reversed then iEarlier + 1 else iEarlier
        if ¬ insertOK then { st with zones := zones2 }
        else
          let newZone := { SamplePercCacheZone.fresh zoneEarlier.startPos with
            samplesAtStartWhichShouldBeReplaced := zoneEarlier.samplesAtStartWhichShouldBeReplaced
            endPos := earlierBorder }
          { st with zones := zonesInsertAt zones2 iNew newZone }
      else
        let zones2 := zonesSet st.zones iEarlier (zoneEarlier.resetEndPos earlierBorder)
        percCacheStolenLater { st with zones := zones2 } pd rev01 reversed iEarlier laterBorder
    else
      percCacheStolenLater st pd rev01 reversed iEarlier laterBorder
  | none =>
    percCacheStolenLater st pd rev01 reversed iEarlier laterBorder

/-! ## Zone invariant (claim C1) and concrete executions -/

/-- The invariant claim C1 asserts for one direction's zone array. The
array is kept in ascending `startPos` order for both directions and `pd`
is the direction sign: every zone is direction-signed nonempty (so in
particular no `startPos == endPos`), zone starts strictly increase, and
consecutive zones do not overlap (direction-signed: a forward zone ends
at or before its successor starts; a reversed zone covers
`(endPos, startPos]`, so disjointness is `a.startPos ≤ b.endPos`). -/
def zonesWellFormed (pd : Int) (zones : List SamplePercCacheZone) : Prop :=
  (∀ z ∈ zones, 0 < (z.endPos - z.startPos) * pd)
  ∧ zones.Chain' (fun a b => a.startPos < b.startPos)
  ∧ zones.Chain' (fun a b => if pd = 1 then a.endPos ≤ b.startPos else a.startPos ≤ b.endPos)

instance (pd : Int) (zones : List SamplePercCacheZone) : Decidable (zonesWellFormed pd zones) := by
  unfold zonesWellFormed
  exact inferInstance

/-- Claim C1, counterexample — the zone invariant is not maintained: on a
100000-sample mono 16-bit sample, a completed, error-free
`fillPercCache [1000, 1001)` (creating a zone with provisional prefix
2048) followed by a completed, error-free `fillPercCache [999, 1001)`
leaves the zone array `[(999,1001), (1001,1001)]`: the second call stops
inside the first zone's provisional prefix at its `endPos`, and the trim
`nextZone.startPos = endPosSamples` leaves a zone with
`startPos == endPos` in the array when the call returns. -/
theorem fillPercCache_zone_invariant_violated :
    ¬ zonesWellFormed 1 (fillPercCache ⟨100000, 0, 1, 2, 7, 15⟩ (fun _ => 0) (fun _ => true)
        true (fun _ => true) true 1 999 1001 100000
        (fillPercCache ⟨100000, 0, 1, 2, 7, 15⟩ (fun _ => 0) (fun _ => true) true
          (fun _ => true) true 1 1000 1001 100000
          ⟨[], false, false, 0, fun _ => false⟩).state).state.zones := by
  decide

/-- Supporting fact for the C1 counterexample: both calls in the violating
sequence complete with `NO_ERROR` and no abort, so the violation arises in
normal, fully successful operation. -/
theorem fillPercCache_zone_invariant_violated_aux :
    ((fillPercCache ⟨100000, 0, 1, 2, 7, 15⟩ (fun _ => 0) (fun _ => true) true
        (fun _ => true) true 1 1000 1001 100000
        ⟨[], false, false, 0, fun _ => false⟩).error = NO_ERROR
      ∧ (fillPercCache ⟨100000, 0, 1, 2, 7, 15⟩ (fun _ => 0) (fun _ => true) true
        (fun _ => true) true 1 999 1001 100000
        (fillPercCache ⟨100000, 0, 1, 2, 7, 15⟩ (fun _ => 0) (fun _ => true) true
          (fun _ => true) true 1 1000 1001 100000
          ⟨[], false, false, 0, fun _ => false⟩).state).error = NO_ERROR) := by
  decide

/-! ## Eviction split (claim C4) -/

/-- Claim C4, counterexample — on an eviction split the code preserves the
provisional prefix on the *earlier* fragment and zeroes it on the *later*
one, not the other way round. Concrete instance (cluster geometry
`clusterSizeMagnitude = 4`, so one perc cluster covers source positions
`[2048, 4096)` for cluster index 1): a forward zone `[100, 5000)` with
provisional prefix 500 straddles the stolen cluster; after the split no
zone starts at the right border 4096 carrying the original prefix 500 —
the later fragment's prefix is 0. -/
theorem percCacheClusterStolen_later_prefix_not_preserved :
    ¬ (∃ z ∈ (percCacheClusterStolen ⟨100000, 0, 1, 2, 12500, 4⟩ true false 1
        ⟨[⟨100, 5000, 500, 7, 9, [3, 4]⟩], false, true, 49,
          fun j => decide (j = 1 ∨ j = 0)⟩).zones,
      z.startPos = 4096 ∧ z.samplesAtStartWhichShouldBeReplaced = 500) := by
  decide

/-- Claim C4, amended — the split at cluster-aligned borders (the evicted
chunk covers `[leftBorder, rightBorder) = [2048, 4096)`; an exact
`[200,300)` chunk is impossible since chunk coverage is a power of two):
the straddling zone `[100, 5000)` with prefix 500 becomes an earlier
zone `[100, 2048)` that receives the original start and *keeps the
original provisional prefix* (with freshly cleared filter state), and a
later zone `[4096, 5000)` that keeps the resumable filter state but has
its provisional prefix cleared to zero; the evicted slot becomes null
while other slots are untouched. -/
theorem percCacheClusterStolen_eviction_split :
    (percCacheClusterStolen ⟨100000, 0, 1, 2, 12500, 4⟩ true false 1
        ⟨[⟨100, 5000, 500, 7, 9, [3, 4]⟩], false, true, 49,
          fun j => decide (j = 1 ∨ j = 0)⟩).zones
      = [⟨100, 2048, 500, 0, 0, [0, 0]⟩, ⟨4096, 5000, 0, 7, 9, [3, 4]⟩]
    ∧ (percCacheClusterStolen ⟨100000, 0, 1, 2, 12500, 4⟩ true false 1
        ⟨[⟨100, 5000, 500, 7, 9, [3, 4]⟩], false, true, 49,
          fun j => decide (j = 1 ∨ j = 0)⟩).percCluster 1 = false
    ∧ (percCacheClusterStolen ⟨100000, 0, 1, 2, 12500, 4⟩ true false 1
        ⟨[⟨100, 5000, 500, 7, 9, [3, 4]⟩], false, true, 49,
          fun j => decide (j = 1 ∨ j = 0)⟩).percCluster 0 = true := by
  decide

/-! ## The percussiveness division and silence (claim C9) -/

set_option maxRecDepth 4000 in
/-- Claim C9 — refuted on the code: filling the percussive cache over an
all-zero (silent) region from a fresh zone reaches the percussiveness
derivation with smoothed angle 0, i.e. `difference * 262144 / angle`
divides by zero (undefined behaviour in C; the recorded writes keep the
divisor). Concrete failing input: a silent 100000-sample mono 16-bit
sample, forward fill of `[0, 200)`. -/
theorem fillPercCache_silent_zero_divisor :
    ∃ w ∈ (fillPercCache ⟨100000, 0, 1, 2, 7, 15⟩ (fun _ => 0) (fun _ => true) true
        (fun _ => true) true 1 0 200 100000
        ⟨[], false, false, 0, fun _ => false⟩).writes, w.angle = 0 := by
  decide

/-! ## Error taxonomy of the fill path (claim C10) -/

/-- Error discipline the streaming loop guarantees: either no error (and
the abort, if any, is not the allocation failure), or
`ERROR_INSUFFICIENT_RAM` from a failed perc-cluster allocation. -/
def loopErrorOK (percClusterAllocOK : Int → Bool) (r : FillLoopOut) : Prop :=
  (r.error = NO_ERROR ∧ r.abort ≠ some FillAbort.percClusterAllocFailed)
  ∨ (r.error = ERROR_INSUFFICIENT_RAM ∧ r.abort = some FillAbort.percClusterAllocFailed
    ∧ ∃ j, percClusterAllocOK j = false)

theorem fillLoop_error_classification (cfg : SampleCfg) (read32 : Int → Int)
    (clusterLoaded : Int → Bool) (percClusterAllocOK : Int → Bool) (pd : Int)
    (reversed percCacheDoneWithClusters : Bool) :
    ∀ (fuel : Nat) (numSamples pos srcByte : Int) (zone : SamplePercCacheZone)
      (pc : Int → Bool) (ws : List PercWrite),
      loopErrorOK percClusterAllocOK (fillLoop cfg read32 clusterLoaded percClusterAllocOK pd
        reversed percCacheDoneWithClusters fuel numSamples pos srcByte zone pc ws) := by
  intro fuel
  induction fuel with
  | zero =>
    intro numSamples pos srcByte zone pc ws
    simp [fillLoop, loopErrorOK]
  | succ f ih =>
    intro numSamples pos srcByte zone pc ws
    simp only [fillLoop]
    split
    · simp [loopErrorOK]
    · split
      · rename_i hcond
        right
        refine ⟨rfl, rfl, sar pos (cfg.clusterSizeMagnitude + kPercBufferReductionMagnitude), ?_⟩
        simpa using hcond.2.2
      · repeat' split
        all_goals first
          | exact ih _ _ _ _ _ _
          | simp [loopErrorOK]

theorem fillAssemble_error_classification (percClusterAllocOK : Int → Bool) (pd i : Int)
    (t : FillTarget) (st : PercCacheState) (r : FillLoopOut)
    (h : loopErrorOK percClusterAllocOK r) :
    (((fillAssemble pd i t st r).abort = some FillAbort.sourceClusterMissing
      ∨ (fillAssemble pd i t st r).abort = some FillAbort.outOfAudioData) →
      (fillAssemble pd i t st r).error = NO_ERROR)
    ∧ ((fillAssemble pd i t st r).error = NO_ERROR
      ∨ ((fillAssemble pd i t st r).error = ERROR_INSUFFICIENT_RAM
        ∧ ∃ j, percClusterAllocOK j = false)) := by
  rcases hr : r.abort with _ | a
  · simp [fillAssemble, hr]
  · rcases h with ⟨he, hn⟩ | ⟨he, ha, hj⟩
    · simp [fillAssemble, hr, he]
    · rw [hr] at ha
      cases ha
      simp [fillAssemble, hr, he, hj]

theorem fillFromZone_error_classification (cfg : SampleCfg) (read32 : Int → Int)
    (clusterLoaded : Int → Bool) (percClusterAllocOK : Int → Bool) (pd : Int)
    (rev pdc : Bool) (i sp e m : Int) (st2 : PercCacheState) :
    (((fillFromZone cfg read32 clusterLoaded percClusterAllocOK pd rev pdc
        i sp e m st2).abort = some FillAbort.sourceClusterMissing
      ∨ (fillFromZone cfg read32 clusterLoaded percClusterAllocOK pd rev pdc
        i sp e m st2).abort = some FillAbort.outOfAudioData) →
      (fillFromZone cfg read32 clusterLoaded percClusterAllocOK pd rev pdc
        i sp e m st2).error = NO_ERROR)
    ∧ ((fillFromZone cfg read32 clusterLoaded percClusterAllocOK pd rev pdc
        i sp e m st2).error = NO_ERROR
      ∨ ((fillFromZone cfg read32 clusterLoaded percClusterAllocOK pd rev pdc
          i sp e m st2).error = ERROR_INSUFFICIENT_RAM
        ∧ ∃ j, percClusterAllocOK j = false)) := by
  simp only [fillFromZone]
  split
  · exact ⟨fun _ => rfl, Or.inl rfl⟩
  · exact fillAssemble_error_classification percClusterAllocOK pd i _ st2 _
      (fillLoop_error_classification cfg read32 clusterLoaded percClusterAllocOK pd
        rev pdc _ _ _ _ _ _ _)

theorem fillCreateZone_error_classification (cfg : SampleCfg) (read32 : Int → Int)
    (clusterLoaded : Int → Bool) (percClusterAllocOK : Int → Bool) (insertOK : Bool)
    (pd : Int) (rev : Bool) (i0 s0 e m : Int) (st1 : PercCacheState) :
    (((fillCreateZone cfg read32 clusterLoaded percClusterAllocOK insertOK pd rev
        i0 s0 e m st1).abort = some FillAbort.sourceClusterMissing
      ∨ (fillCreateZone cfg read32 clusterLoaded percClusterAllocOK insertOK pd rev
        i0 s0 e m st1).abort = some FillAbort.outOfAudioData) →
      (fillCreateZone cfg read32 clusterLoaded percClusterAllocOK insertOK pd rev
        i0 s0 e m st1).error = NO_ERROR)
    ∧ ((fillCreateZone cfg read32 clusterLoaded percClusterAllocOK insertOK pd rev
        i0 s0 e m st1).error = NO_ERROR
      ∨ ((fillCreateZone cfg read32 clusterLoaded percClusterAllocOK insertOK pd rev
          i0 s0 e m st1).error = ERROR_INSUFFICIENT_RAM
        ∧ (insertOK = false ∨ ∃ j, percClusterAllocOK j = false))) := by
  simp only [fillCreateZone]
  split
  · rename_i h
    refine ⟨fun hc => by simp at hc, Or.inr ⟨rfl, Or.inl ?_⟩⟩
    simpa using h
  · rcases fillFromZone_error_classification cfg read32 clusterLoaded percClusterAllocOK pd
      rev (percCacheDoneWithClustersOf cfg) (if ¬ rev then i0 + 1 else i0) s0 e m _
      with ⟨h1, h2⟩
    refine ⟨h1, ?_⟩
    rcases h2 with h2 | ⟨h2, hj⟩
    · exact Or.inl h2
    · exact Or.inr ⟨h2, Or.inr hj⟩

theorem fillAfterStorage_error_classification (cfg : SampleCfg) (read32 : Int → Int)
    (clusterLoaded : Int → Bool) (percClusterAllocOK : Int → Bool) (insertOK : Bool)
    (pd : Int) (rev : Bool) (s0 e m : Int) (st1 : PercCacheState) :
    (((fillAfterStorage cfg read32 clusterLoaded percClusterAllocOK insertOK pd rev
        s0 e m st1).abort = some FillAbort.sourceClusterMissing
      ∨ (fillAfterStorage cfg read32 clusterLoaded percClusterAllocOK insertOK pd rev
        s0 e m st1).abort = some FillAbort.outOfAudioData) →
      (fillAfterStorage cfg read32 clusterLoaded percClusterAllocOK insertOK pd rev
        s0 e m st1).error = NO_ERROR)
    ∧ ((fillAfterStorage cfg read32 clusterLoaded percClusterAllocOK insertOK pd rev
        s0 e m st1).error = NO_ERROR
      ∨ ((fillAfterStorage cfg read32 clusterLoaded percClusterAllocOK insertOK pd rev
          s0 e m st1).error = ERROR_INSUFFICIENT_RAM
        ∧ (insertOK = false ∨ ∃ j, percClusterAllocOK j = false))) := by
  simp only [fillAfterStorage]
  split
  · split
    · split
      · exact ⟨fun _ => rfl, Or.inl rfl⟩
      · split
        · exact ⟨fun _ => rfl, Or.inl rfl⟩
        · rcases fillFromZone_error_classification cfg read32 clusterLoaded percClusterAllocOK
            pd rev (percCacheDoneWithClustersOf cfg) _ _ e m st1 with ⟨h1, h2⟩
          refine ⟨h1, ?_⟩
          rcases h2 with h2 | ⟨h2, hj⟩
          · exact Or.inl h2
          · exact Or.inr ⟨h2, Or.inr hj⟩
    · exact fillCreateZone_error_classification cfg read32 clusterLoaded percClusterAllocOK
        insertOK pd rev _ s0 e m st1
  · exact fillCreateZone_error_classification cfg read32 clusterLoaded percClusterAllocOK
      insertOK pd rev _ s0 e m st1

/-- Claim C10 — error discipline of `fillPercCache`: a fill stopped early
by an absent or not-yet-loaded source cluster (or by running off the
audio data) returns `NO_ERROR` with the progress made so far committed;
any nonzero return is `ERROR_INSUFFICIENT_RAM` and only arises from a
failed storage allocation, a failed zone-array insertion, or a failed
perc-cluster allocation. -/
theorem fillPercCache_error_taxonomy (cfg : SampleCfg) (read32 : Int → Int)
    (clusterLoaded : Int → Bool) (storageAllocOK : Bool) (percClusterAllocOK : Int → Bool)
    (insertOK : Bool) (pd s e m : Int) (st : PercCacheState) :
    (((fillPercCache cfg read32 clusterLoaded storageAllocOK percClusterAllocOK insertOK
        pd s e m st).abort = some FillAbort.sourceClusterMissing
      ∨ (fillPercCache cfg read32 clusterLoaded storageAllocOK percClusterAllocOK insertOK
        pd s e m st).abort = some FillAbort.outOfAudioData) →
      (fillPercCache cfg read32 clusterLoaded storageAllocOK percClusterAllocOK insertOK
        pd s e m st).error = NO_ERROR)
    ∧ ((fillPercCache cfg read32 clusterLoaded storageAllocOK percClusterAllocOK insertOK
        pd s e m st).error = NO_ERROR
      ∨ ((fillPercCache cfg read32 clusterLoaded storageAllocOK percClusterAllocOK insertOK
          pd s e m st).error = ERROR_INSUFFICIENT_RAM
        ∧ (storageAllocOK = false ∨ insertOK = false
          ∨ ∃ j, percClusterAllocOK j = false))) := by
  simp only [fillPercCache]
  split
  · exact ⟨fun _ => rfl, Or.inl rfl⟩
  · split
    · rename_i h
      refine ⟨fun hc => by simp at hc, Or.inr ⟨rfl, Or.inl ?_⟩⟩
      simpa using h.2.2
    · split
      · rename_i h
        refine ⟨fun hc => by simp at hc, Or.inr ⟨rfl, Or.inl ?_⟩⟩
        simpa using h.2.2
      · rcases fillAfterStorage_error_classification cfg read32 clusterLoaded
          percClusterAllocOK insertOK pd _ s e m (fillStorageAlloc cfg st) with ⟨h1, h2⟩
        refine ⟨h1, ?_⟩
        rcases h2 with h2 | ⟨h2, hj⟩
        · exact Or.inl h2
        · rcases hj with hj | hj
          · exact Or.inr ⟨h2, Or.inr (Or.inl hj)⟩
          · exact Or.inr ⟨h2, Or.inr (Or.inr hj)⟩

/-- Witness for `fillPercCache_error_taxonomy`: a fill whose source
cluster is not loaded aborts with `sourceClusterMissing` and still
returns `NO_ERROR`. -/
theorem fillPercCache_error_taxonomy_witness :
    (fillPercCache ⟨100000, 0, 1, 2, 7, 15⟩ (fun _ => 0) (fun _ => false) true
      (fun _ => true) true 1 0 200 100000 ⟨[], false, false, 0, fun _ => false⟩).error
        = NO_ERROR :=
  (fillPercCache_error_taxonomy ⟨100000, 0, 1, 2, 7, 15⟩ (fun _ => 0) (fun _ => false) true
    (fun _ => true) true 1 0 200 100000 ⟨[], false, false, 0, fun _ => false⟩).1
    (Or.inl (by decide))

/-! ## Arithmetic facts about the embedding primitives -/

theorem sar_eq_ediv (a : Int) (k : Nat) : sar a k = a / 2 ^ k := by
  cases a with
  | ofNat m =>
    rw [sar]
    rw [Nat.shiftRight_eq_div_pow]
    show ((m / 2 ^ k : Nat) : Int) = (m : Int) / 2 ^ k
    rw [Int.ofNat_ediv]
    norm_num
  | negSucc m =>
    rw [sar]
    rw [Nat.shiftRight_eq_div_pow]
    rw [Int.negSucc_ediv _ (by positivity)]
    rw [Int.negSucc_coe]
    push_cast [Int.ofNat_ediv]
    ring_nf
    rfl

theorem lowBits_nonneg (a : Int) (k : Nat) : 0 ≤ lowBits a k :=
  Int.emod_nonneg a (by positivity)

theorem lowBits_lt (a : Int) (k : Nat) : lowBits a k < 2 ^ k :=
  Int.emod_lt_of_pos a (by positivity)

theorem sar_nonneg_of_nonneg {a : Int} (h : 0 ≤ a) (k : Nat) : 0 ≤ sar a k := by
  rw [sar_eq_ediv]
  exact Int.ediv_nonneg h (by positivity)

theorem sar_mono {a b : Int} (h : a ≤ b) (k : Nat) : sar a k ≤ sar b k := by
  rw [sar_eq_ediv, sar_eq_ediv]
  exact Int.ediv_le_ediv (by positivity) h

/-! ## Structural facts about the streaming loop -/

theorem runSegments_zone_fields (cfg : SampleCfg) (read32 : Int → Int) (pd : Int)
    (reversed : Bool) : ∀ (fuel : Nat) (count pos : Int) (zone : SamplePercCacheZone)
      (ws : List PercWrite),
      (runSegments cfg read32 pd reversed fuel count pos zone ws).1.startPos = zone.startPos
      ∧ (runSegments cfg read32 pd reversed fuel count pos zone
          ws).1.samplesAtStartWhichShouldBeReplaced = zone.samplesAtStartWhichShouldBeReplaced
      ∧ (runSegments cfg read32 pd reversed fuel count pos zone ws).1.endPos = zone.endPos := by
  intro fuel
  induction fuel with
  | zero => intro count pos zone ws; exact ⟨rfl, rfl, rfl⟩
  | succ f ih =>
    intro count pos zone ws
    simp only [runSegments]
    split
    · exact ⟨rfl, rfl, rfl⟩
    · exact ih _ _ _ _

/-- Each iteration of the per-pixel segmentation consumes between 1 and
`kPercBufferReductionSize` samples. -/
theorem segLeft_bounds (reversed : Bool) (pos : Int) :
    1 ≤ (let segLeft0 := if reversed then
        lowBits (pos + 1 + (kPercBufferReductionSize / 2)) kPercBufferReductionMagnitude
      else kPercBufferReductionSize
        - lowBits (pos + (kPercBufferReductionSize / 2)) kPercBufferReductionMagnitude
      if segLeft0 = 0 then kPercBufferReductionSize else segLeft0)
    ∧ (let segLeft0 := if reversed then
        lowBits (pos + 1 + (kPercBufferReductionSize / 2)) kPercBufferReductionMagnitude
      else kPercBufferReductionSize
        - lowBits (pos + (kPercBufferReductionSize / 2)) kPercBufferReductionMagnitude
      if segLeft0 = 0 then kPercBufferReductionSize else segLeft0) ≤ kPercBufferReductionSize := by
  cases reversed with
  | false =>
    have h1 := lowBits_nonneg (pos + (kPercBufferReductionSize / 2)) kPercBufferReductionMagnitude
    have h2 := lowBits_lt (pos + (kPercBufferReductionSize / 2)) kPercBufferReductionMagnitude
    norm_num [kPercBufferReductionSize, kPercBufferReductionMagnitude] at h1 h2 ⊢
    omega
  | true =>
    have h1 := lowBits_nonneg (pos + 1 + (kPercBufferReductionSize / 2))
      kPercBufferReductionMagnitude
    have h2 := lowBits_lt (pos + 1 + (kPercBufferReductionSize / 2)) kPercBufferReductionMagnitude
    norm_num [kPercBufferReductionSize, kPercBufferReductionMagnitude] at h1 h2 ⊢
    omega

/-- With fuel at least `count`, the segmentation loop consumes exactly
`count` samples (when `count ≥ 0`), ending at `pos + count * pd`. -/
theorem runSegments_pos_complete (cfg : SampleCfg) (read32 : Int → Int) (pd : Int)
    (reversed : Bool) : ∀ (fuel : Nat) (count pos : Int) (zone : SamplePercCacheZone)
      (ws : List PercWrite), count.toNat ≤ fuel →
      (runSegments cfg read32 pd reversed fuel count pos zone ws).2.1
        = pos + max count 0 * pd := by
  intro fuel
  induction fuel with
  | zero =>
    intro count pos zone ws hf
    have : count ≤ 0 := by omega
    simp only [runSegments]
    have : max count 0 = 0 := by omega
    rw [this]
    ring
  | succ f ih =>
    intro count pos zone ws hf
    simp only [runSegments]
    split
    · rename_i hc
      have : max count 0 = 0 := by omega
      rw [this]
      ring
    · rename_i hc
      have hseg := segLeft_bounds reversed pos
      simp only at hseg
      rw [ih _ _ _ _ (by omega)]
      have hcount : 0 < count := by omega
      have h1 : 1 ≤ min count (if (if reversed = true then
          lowBits (pos + 1 + (kPercBufferReductionSize / 2)) kPercBufferReductionMagnitude
        else kPercBufferReductionSize
          - lowBits (pos + (kPercBufferReductionSize / 2)) kPercBufferReductionMagnitude) = 0
        then kPercBufferReductionSize
        else (if reversed = true then
          lowBits (pos + 1 + (kPercBufferReductionSize / 2)) kPercBufferReductionMagnitude
        else kPercBufferReductionSize
          - lowBits (pos + (kPercBufferReductionSize / 2)) kPercBufferReductionMagnitude)) := by
        rcases hseg with ⟨hs1, _⟩
        omega
      generalize hmin : min count (if (if reversed = true then
          lowBits (pos + 1 + (kPercBufferReductionSize / 2)) kPercBufferReductionMagnitude
        else kPercBufferReductionSize
          - lowBits (pos + (kPercBufferReductionSize / 2)) kPercBufferReductionMagnitude) = 0
        then kPercBufferReductionSize
        else (if reversed = true then
          lowBits (pos + 1 + (kPercBufferReductionSize / 2)) kPercBufferReductionMagnitude
        else kPercBufferReductionSize
          - lowBits (pos + (kPercBufferReductionSize / 2)) kPercBufferReductionMagnitude)) = seg
      rw [hmin] at h1
      have hsegle : seg ≤ count := by omega
      have hmax1 : max (count - seg) 0 = count - seg := by omega
      have hmax2 : max count 0 = count := by omega
      rw [hmax1, hmax2]
      ring

theorem n1_bounds (n dest : Int) (hn : 0 ≤ n) (hdest : 0 < dest) (pdc : Bool) :
    0 ≤ (if pdc = true then min n dest else n)
    ∧ (if pdc = true then min n dest else n) ≤ n := by
  split
  · exact ⟨le_min hn (le_of_lt hdest), min_le_left _ _⟩
  · exact ⟨hn, le_refl n⟩

theorem n2_bounds (n n1 bytesLeft bps : Int) (hbps : 0 < bps) (hbl : 0 < bytesLeft)
    (hn1 : 0 ≤ n1) (hn1n : n1 ≤ n) :
    0 ≤ (if n1 * bps > bytesLeft + bps then bytesLeft / bps else n1)
    ∧ (if n1 * bps > bytesLeft + bps then bytesLeft / bps else n1) ≤ n := by
  split
  · rename_i h
    constructor
    · exact Int.ediv_nonneg (le_of_lt hbl) (le_of_lt hbps)
    · have h2 : bytesLeft < n1 * bps := by linarith
      have h3 := Int.ediv_lt_of_lt_mul hbps h2
      omega
  · exact ⟨hn1, hn1n⟩

/-- Progress tracking of the streaming loop: the worked-on zone's
`startPos` and provisional prefix never change; its `endPos` and the
current position advance together by some `k ∈ [0, numSamples]` samples
(direction-signed), and a run that ends without abort consumed exactly
`numSamples`. -/
theorem fillLoop_progress (cfg : SampleCfg) (read32 : Int → Int) (clusterLoaded : Int → Bool)
    (percClusterAllocOK : Int → Bool) (pd : Int) (reversed pdc : Bool)
    (hbps : 0 < cfg.bytesPerSample) :
    ∀ (fuel : Nat) (n pos srcByte : Int) (zone : SamplePercCacheZone) (pc : Int → Bool)
      (ws : List PercWrite), 0 ≤ n →
      ∃ k : Int, 0 ≤ k ∧ k ≤ n
        ∧ (fillLoop cfg read32 clusterLoaded percClusterAllocOK pd reversed pdc
            fuel n pos srcByte zone pc ws).zone.endPos = zone.endPos + k * pd
        ∧ (fillLoop cfg read32 clusterLoaded percClusterAllocOK pd reversed pdc
            fuel n pos srcByte zone pc ws).zone.startPos = zone.startPos
        ∧ (fillLoop cfg read32 clusterLoaded percClusterAllocOK pd reversed pdc
            fuel n pos srcByte zone pc ws).zone.samplesAtStartWhichShouldBeReplaced
              = zone.samplesAtStartWhichShouldBeReplaced
        ∧ (fillLoop cfg read32 clusterLoaded percClusterAllocOK pd reversed pdc
            fuel n pos srcByte zone pc ws).startPos = pos + k * pd
        ∧ ((fillLoop cfg read32 clusterLoaded percClusterAllocOK pd reversed pdc
            fuel n pos srcByte zone pc ws).abort = none → k = n) := by
  intro fuel
  induction fuel with
  | zero =>
    intro n pos srcByte zone pc ws hn
    refine ⟨0, le_refl 0, hn, by simp [fillLoop], by simp [fillLoop], by simp [fillLoop],
      by simp [fillLoop], ?_⟩
    intro h
    simp [fillLoop] at h
  | succ f ih =>
    intro n pos srcByte zone pc ws hn
    have hcs : cfg.clusterSize = 2 ^ cfg.clusterSizeMagnitude := rfl
    have hlbs1 := lowBits_nonneg srcByte cfg.clusterSizeMagnitude
    have hlbs2 := lowBits_lt srcByte cfg.clusterSizeMagnitude
    rw [← hcs] at hlbs2
    have hbytes : 0 < (if reversed = true then
        lowBits srcByte cfg.clusterSizeMagnitude + cfg.bytesPerSample
      else cfg.clusterSize - lowBits srcByte cfg.clusterSizeMagnitude
        + cfg.bytesPerSample - 1) := by
      split <;> omega
    have hlbp1 := lowBits_nonneg pos (cfg.clusterSizeMagnitude + kPercBufferReductionMagnitude)
    have hlbp2 := lowBits_lt pos (cfg.clusterSizeMagnitude + kPercBufferReductionMagnitude)
    have hbig : (2 : Int) ^ (cfg.clusterSizeMagnitude + kPercBufferReductionMagnitude)
        = cfg.clusterSize * kPercBufferReductionSize := by
      rw [pow_add, hcs]
      norm_num [kPercBufferReductionSize, kPercBufferReductionMagnitude]
    rw [hbig] at hlbp2
    have hdest : 0 < (if reversed = true then
        lowBits pos (cfg.clusterSizeMagnitude + kPercBufferReductionMagnitude) + 1
      else cfg.clusterSize * kPercBufferReductionSize
        - lowBits pos (cfg.clusterSizeMagnitude + kPercBufferReductionMagnitude)) := by
      split <;> omega
    have hn1 := n1_bounds n (if reversed = true then
        lowBits pos (cfg.clusterSizeMagnitude + kPercBufferReductionMagnitude) + 1
      else cfg.clusterSize * kPercBufferReductionSize
        - lowBits pos (cfg.clusterSizeMagnitude + kPercBufferReductionMagnitude)) hn hdest pdc
    have hn2 := n2_bounds n (if pdc = true then
        min n (if reversed = true then
          lowBits pos (cfg.clusterSizeMagnitude + kPercBufferReductionMagnitude) + 1
        else cfg.clusterSize * kPercBufferReductionSize
          - lowBits pos (cfg.clusterSizeMagnitude + kPercBufferReductionMagnitude))
      else n)
      (if reversed = true then
        lowBits srcByte cfg.clusterSizeMagnitude + cfg.bytesPerSample
      else cfg.clusterSize - lowBits srcByte cfg.clusterSizeMagnitude
        + cfg.bytesPerSample - 1) cfg.bytesPerSample hbps hbytes hn1.1 hn1.2
    simp only [fillLoop]
    split
    · refine ⟨0, le_refl 0, hn, by ring, rfl, rfl, by ring, ?_⟩
      intro h
      cases h
    · split
      · refine ⟨0, le_refl 0, hn, by ring, rfl, rfl, by ring, ?_⟩
        intro h
        cases h
      · split
        · refine ⟨0, le_refl 0, hn, by ring, rfl, rfl, by ring, ?_⟩
          intro h
          cases h
        · set n2val := (if (if pdc = true then
              min n (if reversed = true then
                lowBits pos (cfg.clusterSizeMagnitude + kPercBufferReductionMagnitude) + 1
              else cfg.clusterSize * kPercBufferReductionSize
                - lowBits pos (cfg.clusterSizeMagnitude + kPercBufferReductionMagnitude))
            else n) * cfg.bytesPerSample
              > (if reversed = true then
                lowBits srcByte cfg.clusterSizeMagnitude + cfg.bytesPerSample
              else cfg.clusterSize - lowBits srcByte cfg.clusterSizeMagnitude
                + cfg.bytesPerSample - 1) + cfg.bytesPerSample
            then (if reversed = true then
                lowBits srcByte cfg.clusterSizeMagnitude + cfg.bytesPerSample
              else cfg.clusterSize - lowBits srcByte cfg.clusterSizeMagnitude
                + cfg.bytesPerSample - 1) / cfg.bytesPerSample
            else (if pdc = true then
              min n (if reversed = true then
                lowBits pos (cfg.clusterSizeMagnitude + kPercBufferReductionMagnitude) + 1
              else cfg.clusterSize * kPercBufferReductionSize
                - lowBits pos (cfg.clusterSizeMagnitude + kPercBufferReductionMagnitude))
            else n)) with hn2val
          rcases hn2 with ⟨hn2a, hn2b⟩
          have hz := runSegments_zone_fields cfg read32 pd reversed n2val.toNat n2val pos
            { zone with endPos := zone.endPos + n2val * pd } ws
          have hp := runSegments_pos_complete cfg read32 pd reversed n2val.toNat n2val pos
            { zone with endPos := zone.endPos + n2val * pd } ws (le_refl _)
          have hmax : max n2val 0 = n2val := by omega
          rw [hmax] at hp
          by_cases hdone : n - n2val = 0
          · rw [if_pos hdone]
            exact ⟨n2val, hn2a, hn2b, hz.2.2, hz.1, hz.2.1, hp, fun _ => by omega⟩
          · rw [if_neg hdone]
            rcases ih (n - n2val)
              ((runSegments cfg read32 pd reversed n2val.toNat n2val pos
                { zone with endPos := zone.endPos + n2val * pd } ws).2.1)
              (srcByte + n2val * cfg.bytesPerSample * pd)
              ((runSegments cfg read32 pd reversed n2val.toNat n2val pos
                { zone with endPos := zone.endPos + n2val * pd } ws).1)
              (if pdc = true
                  ∧ ¬ pc (sar pos (cfg.clusterSizeMagnitude + kPercBufferReductionMagnitude))
                    = true then
                fun j => if j = sar pos (cfg.clusterSizeMagnitude
                  + kPercBufferReductionMagnitude) then true else pc j
              else pc)
              ((runSegments cfg read32 pd reversed n2val.toNat n2val pos
                { zone with endPos := zone.endPos + n2val * pd } ws).2.2)
              (by omega) with ⟨k2, hk2a, hk2b, hk2end, hk2start, hk2samp, hk2pos, hk2ab⟩
            refine ⟨n2val + k2, by omega, by omega, ?_, ?_, ?_, ?_, ?_⟩
            · rw [hk2end, hz.2.2]
              simp only [SamplePercCacheZone.mk.injEq]
              ring
            · rw [hk2start, hz.1]
            · rw [hk2samp, hz.2.1]
            · rw [hk2pos, hp]
              ring
            · intro hab
              have := hk2ab hab
              omega

/-- Extending the single existing zone from its end position leaves
exactly one zone, with its start untouched and its end not moved
backwards (direction-signed), whatever the cluster residency and
allocation outcomes. -/
theorem fillFromZone_extend_single (cfg : SampleCfg) (read32 : Int → Int)
    (clusterLoaded : Int → Bool) (percClusterAllocOK : Int → Bool) (pd : Int)
    (rev pdc : Bool) (e m : Int) (z : SamplePercCacheZone) (st1 : PercCacheState)
    (hz : st1.zones = [z]) (hne : 0 < (z.endPos - z.startPos) * pd)
    (hpd : pd = 1 ∨ pd = -1) (hbps : 0 < cfg.bytesPerSample) :
    ∃ z2, (fillFromZone cfg read32 clusterLoaded percClusterAllocOK pd rev pdc
        0 z.endPos e m st1).state.zones = [z2]
      ∧ z2.startPos = z.startPos ∧ 0 ≤ (z2.endPos - z.endPos) * pd := by
  have hat0 : zoneAt st1.zones 0 = some z := by
    simp [zoneAt, hz]
  have hatNext : zoneAt st1.zones (0 + pd) = none := by
    rcases hpd with rfl | rfl <;> simp [zoneAt, hz]
  have hwh : (fillComputeTarget cfg pd rev st1.zones 0 z.endPos e m).willHit = false := by
    simp only [fillComputeTarget, hatNext]
  have hnez : ¬ (z.endPos = z.startPos) := by
    rcases hpd with rfl | rfl <;> omega
  simp only [fillFromZone]
  rw [hat0]
  simp only [Option.getD_some]
  split
  · refine ⟨z, ?_, rfl, by omega⟩
    simp [finishGetOut, zoneAt, hz, hnez]
  · rename_i hns
    have hnum : 0 ≤ ((fillComputeTarget cfg pd rev st1.zones 0 z.endPos e m).endPosSamples
        - z.endPos) * pd := by omega
    rcases fillLoop_progress cfg read32 clusterLoaded percClusterAllocOK pd rev pdc hbps
      (((fillComputeTarget cfg pd rev st1.zones 0 z.endPos e m).endPosSamples
        - z.endPos) * pd).toNat
      (((fillComputeTarget cfg pd rev st1.zones 0 z.endPos e m).endPosSamples
        - z.endPos) * pd)
      z.endPos (cfg.audioDataStartPosBytes + z.endPos * cfg.bytesPerSample) z
      st1.percCluster [] hnum with ⟨k, hk0, hkn, hkend, hkstart, hksamp, hkpos, hkab⟩
    generalize hL : fillLoop cfg read32 clusterLoaded percClusterAllocOK pd rev pdc
      (((fillComputeTarget cfg pd rev st1.zones 0 z.endPos e m).endPosSamples
        - z.endPos) * pd).toNat
      (((fillComputeTarget cfg pd rev st1.zones 0 z.endPos e m).endPosSamples
        - z.endPos) * pd)
      z.endPos (cfg.audioDataStartPosBytes + z.endPos * cfg.bytesPerSample) z
      st1.percCluster [] = L
    rw [hL] at hkend hkstart hksamp
    have hzend : ¬ (L.zone.endPos = L.zone.startPos) := by
      rw [hkend, hkstart]
      rcases hpd with rfl | rfl <;> omega
    have hzdelta : 0 ≤ (L.zone.endPos - z.endPos) * pd := by
      rw [hkend]
      rcases hpd with rfl | rfl <;> omega
    have hwh2 : (fillComputeTarget cfg pd rev [z] 0 z.endPos e m).willHit = false := by
      rw [hz] at hwh
      exact hwh
    rcases habort : L.abort with _ | a
    · refine ⟨{ L.zone with samplesAtStartWhichShouldBeReplaced := max 2048 ((L.zone.endPos - L.zone.startPos) * pd) }, ?_, hkstart, hzdelta⟩
      simp [fillAssemble, habort, fillFinish, hwh2, zonesSet, hz, finishGetOut, zoneAt, hzend]
    · refine ⟨L.zone, ?_, hkstart, hzdelta⟩
      simp [fillAssemble, habort, zonesSet, hz, finishGetOut, zoneAt, hzend]


/-- Helper for the slack-merge claim: a fill starting 1000 samples past
the single existing zone's end, for either direction, keeps exactly one
zone, preserves its start position and never retreats its end. -/
theorem fillPercCache_merge_within_slack (cfg : SampleCfg) (read32 : Int → Int)
    (clusterLoaded : Int → Bool) (sOK : Bool) (pcOK : Int → Bool) (iOK : Bool)
    (pd P e m : Int) (z : SamplePercCacheZone) (st : PercCacheState)
    (hpd : pd = 1 ∨ pd = -1) (hz : st.zones = [z]) (hP : z.endPos = P)
    (hne : 0 < (P - z.startPos) * pd)
    (hma : st.percCacheMemoryAllocated = true)
    (hca : st.percCacheClustersAllocated = true)
    (hlo : 0 ≤ P - 1000) (hhi : P + 1000 < cfg.lengthInSamples)
    (hbps : 0 < cfg.bytesPerSample) :
    ∃ z2, (fillPercCache cfg read32 clusterLoaded sOK pcOK iOK pd (P + 1000 * pd) e m
        st).state.zones = [z2]
      ∧ z2.startPos = z.startPos ∧ 0 ≤ (z2.endPos - P) * pd := by
  subst hP
  have hfs : fillStorageAlloc cfg st = st := by
    simp [fillStorageAlloc, hma, hca]
  have hat : zoneAt st.zones 0 = some z := by
    simp [zoneAt, hz]
  rcases hpd with rfl | rfl
  · simp only [fillPercCache]
    rw [if_neg (by omega), if_neg (by simp [hca]), if_neg (by simp [hma]), hfs]
    simp only [fillAfterStorage]
    have hd : (decide ((1:Int) ≠ 1)) = false := by decide
    have hi0 : zoneSearchLess st.zones (z.endPos + 1000 * 1 + 1) = 0 := by
      rw [hz]
      simp only [zoneSearchLess, zoneFirstGE]
      rw [if_neg (by omega)]
      omega
    simp only [hd, Bool.false_eq_true, not_false_eq_true, if_true, hi0, false_and,
      true_and, or_false, false_or, hat]
    rw [if_pos (by omega), if_neg (by omega)]
    by_cases hdone : (z.endPos - e) * 1 ≥ 0
    · rw [if_pos hdone]
      exact ⟨z, by simp [hz], rfl, by omega⟩
    · rw [if_neg hdone]
      exact fillFromZone_extend_single cfg read32 clusterLoaded pcOK 1
        false (percCacheDoneWithClustersOf cfg) e m z st hz
        (by omega) (Or.inl rfl) hbps
  · simp only [fillPercCache]
    rw [if_neg (by omega), if_neg (by simp [hca]), if_neg (by simp [hma]), hfs]
    simp only [fillAfterStorage]
    have hd : (decide ((-1:Int) ≠ 1)) = true := by decide
    have hi0 : zoneFirstGE st.zones (z.endPos + 1000 * -1) = 0 := by
      rw [hz]
      simp only [zoneFirstGE]
      rw [if_pos (by omega)]
    simp only [hd, eq_self_iff_true, not_true, if_false, if_true, hi0, false_and,
      true_and, or_false, false_or, hat]
    rw [if_pos (by omega), if_neg (by omega)]
    by_cases hdone : (z.endPos - e) * -1 ≥ 0
    · rw [if_pos hdone]
      exact ⟨z, by simp [hz], rfl, by omega⟩
    · rw [if_neg hdone]
      exact fillFromZone_extend_single cfg read32 clusterLoaded pcOK (-1)
        true (percCacheDoneWithClustersOf cfg) e m z st hz
        (by omega) (Or.inr rfl) hbps

set_option maxRecDepth 8000 in
/-- Claim C6: given an existing zone for a direction ending at position P,
a fillPercCache call for that direction starting at P + 1000 (within the
2048-sample slack) does not create a second zone but snaps back and
extends the existing zone (one zone remains, with its original start and
an end not before P), while a call starting at P + 3000 (beyond the
slack) creates a new, second zone starting at P + 3000. -/
theorem fillPercCache_slack_merge :
    (∀ (cfg : SampleCfg) (read32 : Int → Int) (clusterLoaded : Int → Bool)
        (sOK : Bool) (pcOK : Int → Bool) (iOK : Bool) (pd P e m : Int)
        (z : SamplePercCacheZone) (st : PercCacheState),
      pd = 1 ∨ pd = -1 → st.zones = [z] → z.endPos = P →
      0 < (P - z.startPos) * pd →
      st.percCacheMemoryAllocated = true → st.percCacheClustersAllocated = true →
      0 ≤ P - 1000 → P + 1000 < cfg.lengthInSamples → 0 < cfg.bytesPerSample →
      ∃ z2, (fillPercCache cfg read32 clusterLoaded sOK pcOK iOK pd
          (P + 1000 * pd) e m st).state.zones = [z2]
        ∧ z2.startPos = z.startPos ∧ 0 ≤ (z2.endPos - P) * pd)
    ∧ (fillPercCache ⟨100000, 0, 1, 2, 7, 15⟩ (fun _ => 0) (fun _ => true) true
        (fun _ => true) true 1 (1000 + 3000 * 1) 4100 10000
        ⟨[⟨0, 1000, 2048, 0, 0, [0, 0]⟩], true, true, 7, fun _ => false⟩).state.zones.map
          SamplePercCacheZone.startPos = [0, 4000] := by
  constructor
  · intro cfg read32 clusterLoaded sOK pcOK iOK pd P e m z st hpd hz hP hne hma hca hlo hhi hbps
    exact fillPercCache_merge_within_slack cfg read32 clusterLoaded sOK pcOK iOK pd
      P e m z st hpd hz hP hne hma hca hlo hhi hbps
  · decide

/-- Claim C6, witness: the slack-merge statement applied at a concrete
sample, zone and fill call. -/
theorem fillPercCache_slack_merge_witness :
    ∃ z2, (fillPercCache ⟨100000, 0, 1, 2, 7, 15⟩ (fun _ => 0) (fun _ => true) true
        (fun _ => true) true 1 (1000 + 1000 * 1) 1200 10000
        ⟨[⟨0, 1000, 2048, 0, 0, [0, 0]⟩], true, true, 7, fun _ => false⟩).state.zones = [z2]
      ∧ z2.startPos = 0 ∧ 0 ≤ (z2.endPos - 1000) * 1 :=
  fillPercCache_slack_merge.1 ⟨100000, 0, 1, 2, 7, 15⟩ (fun _ => 0) (fun _ => true) true
    (fun _ => true) true 1 1000 1200 10000 ⟨0, 1000, 2048, 0, 0, [0, 0]⟩
    ⟨[⟨0, 1000, 2048, 0, 0, [0, 0]⟩], true, true, 7, fun _ => false⟩
    (Or.inl rfl) rfl rfl (by decide) rfl rfl (by decide) (by decide) (by decide)


set_option maxRecDepth 8000 in
/-- Claim C1, amended: a fill extending a single existing zone preserves
the invariant (one nonempty zone remains, trivially ordered); in the
violating clamped execution the zones still have strictly increasing
start positions, only the no-empty-zone part fails; and the next fill
starting at the empty zone's position extends it and restores the full
invariant. -/
theorem fillPercCache_zone_invariant_amended :
    (∀ (cfg : SampleCfg) (read32 : Int → Int) (clusterLoaded : Int → Bool)
        (sOK : Bool) (pcOK : Int → Bool) (iOK : Bool) (pd P e m : Int)
        (z : SamplePercCacheZone) (st : PercCacheState),
      pd = 1 ∨ pd = -1 → st.zones = [z] → z.endPos = P →
      0 < (P - z.startPos) * pd →
      st.percCacheMemoryAllocated = true → st.percCacheClustersAllocated = true →
      0 ≤ P - 1000 → P + 1000 < cfg.lengthInSamples → 0 < cfg.bytesPerSample →
      zonesWellFormed pd (fillPercCache cfg read32 clusterLoaded sOK pcOK iOK pd
          (P + 1000 * pd) e m st).state.zones)
    ∧ ((fillPercCache ⟨100000, 0, 1, 2, 7, 15⟩ (fun _ => 0) (fun _ => true)
        true (fun _ => true) true 1 999 1001 100000
        (fillPercCache ⟨100000, 0, 1, 2, 7, 15⟩ (fun _ => 0) (fun _ => true) true
          (fun _ => true) true 1 1000 1001 100000
          ⟨[], false, false, 0, fun _ => false⟩).state).state.zones.Chain'
        (fun a b => a.startPos < b.startPos))
    ∧ zonesWellFormed 1 (fillPercCache ⟨100000, 0, 1, 2, 7, 15⟩ (fun _ => 0)
        (fun _ => true) true (fun _ => true) true 1 1001 1002 100000
        (fillPercCache ⟨100000, 0, 1, 2, 7, 15⟩ (fun _ => 0) (fun _ => true)
          true (fun _ => true) true 1 999 1001 100000
          (fillPercCache ⟨100000, 0, 1, 2, 7, 15⟩ (fun _ => 0) (fun _ => true) true
            (fun _ => true) true 1 1000 1001 100000
            ⟨[], false, false, 0, fun _ => false⟩).state).state).state.zones := by
  refine ⟨?_, ?_, ?_⟩
  case refine_2 =>
    have h2 : (fillPercCache ⟨100000, 0, 1, 2, 7, 15⟩ (fun _ => 0) (fun _ => true)
        true (fun _ => true) true 1 999 1001 100000
        (fillPercCache ⟨100000, 0, 1, 2, 7, 15⟩ (fun _ => 0) (fun _ => true) true
          (fun _ => true) true 1 1000 1001 100000
          ⟨[], false, false, 0, fun _ => false⟩).state).state.zones
        = [⟨999, 1001, 2048, 0, 0, [0, 0]⟩, ⟨1001, 1001, 2047, 0, 0, [0, 0]⟩] := by
      decide
    rw [h2]
    norm_num [List.chain'_cons]
  case refine_3 =>
    have h3 : (fillPercCache ⟨100000, 0, 1, 2, 7, 15⟩ (fun _ => 0)
        (fun _ => true) true (fun _ => true) true 1 1001 1002 100000
        (fillPercCache ⟨100000, 0, 1, 2, 7, 15⟩ (fun _ => 0) (fun _ => true)
          true (fun _ => true) true 1 999 1001 100000
          (fillPercCache ⟨100000, 0, 1, 2, 7, 15⟩ (fun _ => 0) (fun _ => true) true
            (fun _ => true) true 1 1000 1001 100000
            ⟨[], false, false, 0, fun _ => false⟩).state).state).state.zones
        = [⟨999, 1001, 2048, 0, 0, [0, 0]⟩, ⟨1001, 1002, 2048, 0, 0, [0, 0]⟩] := by
      decide
    rw [h3]
    refine ⟨by decide, ?_, ?_⟩ <;> norm_num [List.chain'_cons]
  intro cfg read32 clusterLoaded sOK pcOK iOK pd P e m z st hpd hz hP hne hma hca hlo hhi hbps
  obtain ⟨z2, hzs, hstart, hext⟩ := fillPercCache_merge_within_slack cfg read32
    clusterLoaded sOK pcOK iOK pd P e m z st hpd hz hP hne hma hca hlo hhi hbps
  rw [hzs]
  refine ⟨?_, by simp, by simp⟩
  intro w hw
  simp only [List.mem_singleton] at hw
  subst hw
  rcases hpd with rfl | rfl <;> omega

/-- Claim C1, amended theorem's witness: the single-zone preservation
statement applied at a concrete sample, zone and fill call. -/
theorem fillPercCache_zone_invariant_amended_witness :
    zonesWellFormed 1 (fillPercCache ⟨100000, 0, 1, 2, 7, 15⟩ (fun _ => 0)
        (fun _ => true) true (fun _ => true) true 1 (1000 + 1000 * 1) 1200 10000
        ⟨[⟨0, 1000, 2048, 0, 0, [0, 0]⟩], true, true, 7, fun _ => false⟩).state.zones :=
  fillPercCache_zone_invariant_amended.1 ⟨100000, 0, 1, 2, 7, 15⟩ (fun _ => 0)
    (fun _ => true) true (fun _ => true) true 1 1000 1200 10000
    ⟨0, 1000, 2048, 0, 0, [0, 0]⟩
    ⟨[⟨0, 1000, 2048, 0, 0, [0, 0]⟩], true, true, 7, fun _ => false⟩
    (Or.inl rfl) rfl rfl (by decide) rfl rfl (by decide) (by decide) (by decide)

/-- Canonical per-sample filter update, one forward sample at `pos`:
read, rectified difference, pole cascade; `lastAngle` becomes this
sample's smoothed angle. -/
def sampleStep (cfg : SampleCfg) (read32 : Int → Int) (pos : Int)
    (st : SegmentState) : SegmentState :=
  let v := readSampleValue cfg read32 pos
  let a0 := v - st.lastSampleRead
  let a1 := if a0 < 0 then -a0 else a0
  let r := poleStep a1 st.angleLPFMem
  ⟨v, r.1, r.2⟩

/-- Iterated canonical update over `n` consecutive forward samples, the
first at `pos`. -/
def stepN (cfg : SampleCfg) (read32 : Int → Int) : Nat → Int → SegmentState → SegmentState
  | 0, _, st => st
  | n + 1, pos, st => stepN cfg read32 n (pos + 1) (sampleStep cfg read32 pos st)

/-- Canonical per-sample streaming fold, forward direction: one sample a
step, emitting an envelope byte whenever the position after the sample
sits on a perc-pixel midpoint. The nested cluster/segment loops of
`fillPercCache` are proved equal to this fold. -/
def percFold (cfg : SampleCfg) (read32 : Int → Int) :
    Nat → Int → SegmentState → List PercWrite → SegmentState × List PercWrite
  | 0, _, st, ws => (st, ws)
  | n + 1, pos, st, ws =>
    let st2 := sampleStep cfg read32 pos st
    let ws2 := if lowBits (pos + 1) kPercBufferReductionMagnitude
        = kPercBufferReductionSize / 2 then
        ws ++ [⟨sar (pos + 1) kPercBufferReductionMagnitude,
          percByte st2.lastAngle st.lastAngle, st2.lastAngle, st.lastAngle⟩]
      else ws
    percFold cfg read32 n (pos + 1) st2 ws2

/-- The inner sample loop equals the canonical iteration: the final state
keeps the angle of the run's next-to-last sample in `lastAngle`, and the
run's final smoothed angle is returned separately. -/
theorem processSegmentSamples_eq_stepN (cfg : SampleCfg) (read32 : Int → Int)
    (n : Nat) (pos : Int) (st : SegmentState) :
    processSegmentSamples cfg read32 1 (n + 1) pos st
      = (⟨(stepN cfg read32 (n + 1) pos st).lastSampleRead,
          (stepN cfg read32 n pos st).lastAngle,
          (stepN cfg read32 (n + 1) pos st).angleLPFMem⟩,
        (stepN cfg read32 (n + 1) pos st).lastAngle) := by
  induction n generalizing pos st with
  | zero =>
    simp [processSegmentSamples, stepN, sampleStep]
  | succ n ih =>
    show processSegmentSamples cfg read32 1 (n + 2) pos st = _
    rw [processSegmentSamples]
    have hs : stepN cfg read32 (n + 1 + 1) pos st
        = stepN cfg read32 (n + 1) (pos + 1) (sampleStep cfg read32 pos st) := rfl
    have hs2 : stepN cfg read32 (n + 1) pos st
        = stepN cfg read32 n (pos + 1) (sampleStep cfg read32 pos st) := rfl
    rw [hs, hs2]
    exact ih (pos + 1) (sampleStep cfg read32 pos st)

/-- Splitting the canonical fold: streaming `a + b` samples is streaming
`a`, then `b` from the reached position and state. -/
theorem percFold_add (cfg : SampleCfg) (read32 : Int → Int) (a b : Nat) (pos : Int)
    (st : SegmentState) (ws : List PercWrite) :
    percFold cfg read32 (a + b) pos st ws
      = percFold cfg read32 b (pos + (a : Int)) (percFold cfg read32 a pos st ws).1
          (percFold cfg read32 a pos st ws).2 := by
  induction a generalizing pos st ws with
  | zero => simp [percFold]
  | succ a ih =>
    have h1 : a + 1 + b = (a + b) + 1 := by omega
    rw [h1, percFold]
    conv_rhs => rw [percFold]
    rw [ih]
    have h2 : pos + 1 + (a : Int) = pos + ((a : Int) + 1) := by ring
    rw [h2]
    push_cast
    rfl

/-- The write list argument of `percFold` is a pure accumulator. -/
theorem percFold_append (cfg : SampleCfg) (read32 : Int → Int) (n : Nat) (pos : Int)
    (st : SegmentState) (ws : List PercWrite) :
    percFold cfg read32 n pos st ws
      = ((percFold cfg read32 n pos st []).1,
         ws ++ (percFold cfg read32 n pos st []).2) := by
  induction n generalizing pos st ws with
  | zero => simp [percFold]
  | succ n ih =>
    rw [percFold]
    conv_rhs => rw [percFold]
    by_cases hw : lowBits (pos + 1) kPercBufferReductionMagnitude
        = kPercBufferReductionSize / 2
    · simp only [if_pos hw]
      rw [ih]
      have h2 := ih (pos + 1) (sampleStep cfg read32 pos st)
        [⟨sar (pos + 1) kPercBufferReductionMagnitude,
          percByte (sampleStep cfg read32 pos st).lastAngle st.lastAngle,
          (sampleStep cfg read32 pos st).lastAngle, st.lastAngle⟩]
      simp [h2]
    · simp only [if_neg hw]
      exact ih (pos + 1) (sampleStep cfg read32 pos st) ws

/-- Unfolding of `lowBits` into the remainder notation `omega` can read. -/
theorem lowBits_emod (a : Int) (k : Nat) : lowBits a k = a % (2 ^ k : Int) := rfl

/-- Modular fact: a forward segment bounded by `segLeft` ends exactly on
a perc-pixel midpoint. -/
theorem lowBits_seg_end (pos : Int) :
    lowBits (pos + (kPercBufferReductionSize
        - lowBits (pos + kPercBufferReductionSize / 2) kPercBufferReductionMagnitude))
      kPercBufferReductionMagnitude = kPercBufferReductionSize / 2 := by
  simp only [lowBits_emod, kPercBufferReductionSize, kPercBufferReductionMagnitude]
  norm_num
  omega

/-- Modular fact: no interior position of a forward segment bounded by
`segLeft` sits on a perc-pixel midpoint. -/
theorem lowBits_seg_interior (pos j : Int) (h0 : 0 < j)
    (hj : j < kPercBufferReductionSize
        - lowBits (pos + kPercBufferReductionSize / 2) kPercBufferReductionMagnitude) :
    lowBits (pos + j) kPercBufferReductionMagnitude ≠ kPercBufferReductionSize / 2 := by
  simp only [lowBits_emod, kPercBufferReductionSize, kPercBufferReductionMagnitude] at *
  norm_num at *
  omega

/-- The canonical fold across one write-free-interior segment: the state
advances `n + 1` canonical steps and at most one byte is emitted, at the
segment's final position. -/
theorem percFold_one_segment (cfg : SampleCfg) (read32 : Int → Int) (n : Nat) (pos : Int)
    (st : SegmentState) (ws : List PercWrite)
    (hint : ∀ j : Nat, 0 < j → j < n + 1 →
      lowBits (pos + (j : Int)) kPercBufferReductionMagnitude
        ≠ kPercBufferReductionSize / 2) :
    percFold cfg read32 (n + 1) pos st ws
      = (stepN cfg read32 (n + 1) pos st,
         if lowBits (pos + ((n : Int) + 1)) kPercBufferReductionMagnitude
             = kPercBufferReductionSize / 2 then
           ws ++ [⟨sar (pos + ((n : Int) + 1)) kPercBufferReductionMagnitude,
             percByte (stepN cfg read32 (n + 1) pos st).lastAngle
               (stepN cfg read32 n pos st).lastAngle,
             (stepN cfg read32 (n + 1) pos st).lastAngle,
             (stepN cfg read32 n pos st).lastAngle⟩]
         else ws) := by
  induction n generalizing pos st ws with
  | zero =>
    simp [percFold, stepN]
  | succ n ih =>
    rw [percFold]
    have hn1 : ¬ (lowBits (pos + 1) kPercBufferReductionMagnitude
        = kPercBufferReductionSize / 2) := by
      have h := hint 1 (by omega) (by omega)
      simpa using h
    simp only [if_neg hn1]
    rw [ih (pos + 1) (sampleStep cfg read32 pos st) ws ?hint2]
    case hint2 =>
      intro j hj0 hj1
      have h := hint (j + 1) (by omega) (by omega)
      have hc : pos + ((j + 1 : Nat) : Int) = pos + 1 + (j : Int) := by
        push_cast
        ring
      rwa [hc] at h
    have haddr : pos + 1 + ((n : Int) + 1) = pos + (((n : Nat) + 1 : Int) + 1) := by
      ring
    rw [haddr]
    rfl

/-- The per-segment streaming loop (forward direction) equals the
canonical per-sample fold: the zone's resumable filter state advances by
`count` canonical steps and the same bytes are emitted, however the run
is chopped into perc-pixel segments. -/
theorem runSegments_eq_percFold (cfg : SampleCfg) (read32 : Int → Int) (fuel : Nat) :
    ∀ (count pos : Int) (zone : SamplePercCacheZone) (ws : List PercWrite),
      count.toNat ≤ fuel →
      runSegments cfg read32 1 false fuel count pos zone ws
        = ({ zone with
              lastSampleRead := (percFold cfg read32 count.toNat pos
                ⟨zone.lastSampleRead, zone.lastAngle, zone.angleLPFMem⟩ ws).1.lastSampleRead
              lastAngle := (percFold cfg read32 count.toNat pos
                ⟨zone.lastSampleRead, zone.lastAngle, zone.angleLPFMem⟩ ws).1.lastAngle
              angleLPFMem := (percFold cfg read32 count.toNat pos
                ⟨zone.lastSampleRead, zone.lastAngle, zone.angleLPFMem⟩ ws).1.angleLPFMem },
           pos + max count 0,
           (percFold cfg read32 count.toNat pos
             ⟨zone.lastSampleRead, zone.lastAngle, zone.angleLPFMem⟩ ws).2) := by
  induction fuel with
  | zero =>
    intro count pos zone ws hfuel
    have hc : count.toNat = 0 := by omega
    have hm : max count 0 = 0 := by omega
    rw [runSegments, hc, hm, percFold]
    simp
  | succ fuel ih =>
    intro count pos zone ws hfuel
    by_cases hcnt : count ≤ 0
    · rw [runSegments, if_pos hcnt]
      have hc : count.toNat = 0 := by omega
      have hm : max count 0 = 0 := by omega
      rw [hc, hm, percFold]
      simp
    · simp only [runSegments, if_neg hcnt, Bool.false_eq_true, if_false, mul_one]
      have hlt := lowBits_lt (pos + kPercBufferReductionSize / 2) kPercBufferReductionMagnitude
      have hnn := lowBits_nonneg (pos + kPercBufferReductionSize / 2) kPercBufferReductionMagnitude
      have hkb : ((2 : Int) ^ kPercBufferReductionMagnitude) = 128 := by
        simp [kPercBufferReductionMagnitude]
      rw [hkb] at hlt
      have hk128 : kPercBufferReductionSize = (128 : Int) := rfl
      set L0 := kPercBufferReductionSize
        - lowBits (pos + kPercBufferReductionSize / 2) kPercBufferReductionMagnitude with hL0def
      have hL0a : 1 ≤ L0 := by omega
      have hL0b : L0 ≤ 128 := by omega
      have hL0ne : ¬ (L0 = 0) := by omega
      simp only [if_neg hL0ne]
      set s1 := count ⊓ L0 with hs1def
      have hs1a : 1 ≤ s1 := by
        rw [hs1def]
        omega
      have hs1b : s1 ≤ count := by
        rw [hs1def]
        omega
      have hs1c : s1 ≤ L0 := by
        rw [hs1def]
        omega
      obtain ⟨m, hm⟩ : ∃ m, s1.toNat = m + 1 := ⟨s1.toNat - 1, by omega⟩
      rw [hm, processSegmentSamples_eq_stepN]
      rw [ih (count - s1) (pos + s1) _ _ (by omega)]
      have hsplitNat : count.toNat = s1.toNat + (count - s1).toNat := by omega
      rw [hsplitNat, percFold_add]
      have hcast : ((s1.toNat : Int)) = s1 := Int.toNat_of_nonneg (by omega)
      rw [hcast, hm, percFold_one_segment cfg read32 m pos _ _ ?hint]
      case hint =>
        intro j hj0 hj1
        have hjlt : (j : Int) < L0 := by omega
        have h := lowBits_seg_interior pos (j : Int) (by exact_mod_cast hj0) hjlt
        exact h
      have hms : ((m : Int) + 1) = s1 := by omega
      rw [hms]
      dsimp only
      have hmax1 : pos + s1 + max (count - s1) 0 = pos + max count 0 := by omega
      rw [hmax1]
      have heta : ∀ s : SegmentState,
          (⟨s.lastSampleRead, s.lastAngle, s.angleLPFMem⟩ : SegmentState) = s := fun s => rfl
      simp only [sub_zero, heta]

/-- Concrete sample used for the resume-correctness claim: 100000
samples, mono 16-bit, audio at byte 0, seven 32768-byte clusters, flat
perc storage. -/
def cfgC3 : SampleCfg := ⟨100000, 0, 1, 2, 7, 15⟩

/-- On the flat-storage sample, a run that stays inside the first source
cluster streams in a single `fillLoop` iteration and completes. -/
theorem fillLoop_flat_single (read32 : Int → Int) (pcOK : Int → Bool) (n pos : Int)
    (zone : SamplePercCacheZone) (pc : Int → Bool) (ws : List PercWrite)
    (hn : 0 < n) (hpos : 0 ≤ pos) (hhi : pos + n ≤ 16000) :
    fillLoop cfgC3 read32 (fun _ => true) pcOK 1 false false n.toNat n pos (2 * pos)
        zone pc ws
      = ⟨(runSegments cfgC3 read32 1 false n.toNat n pos
            { zone with endPos := zone.endPos + n * 1 } ws).1,
         (runSegments cfgC3 read32 1 false n.toNat n pos
            { zone with endPos := zone.endPos + n * 1 } ws).2.1,
         2 * pos + n * 2 * 1, pc,
         (runSegments cfgC3 read32 1 false n.toNat n pos
            { zone with endPos := zone.endPos + n * 1 } ws).2.2,
         NO_ERROR, none⟩ := by
  obtain ⟨f, hf⟩ : ∃ f, n.toNat = f + 1 := ⟨n.toNat - 1, by omega⟩
  rw [hf]
  simp only [fillLoop]
  have hsar : sar (2 * pos) cfgC3.clusterSizeMagnitude = 0 := by
    rw [sar_eq_ediv]
    have h15 : cfgC3.clusterSizeMagnitude = 15 := rfl
    rw [h15]
    apply Int.ediv_eq_zero_of_lt (by omega)
    norm_num
    omega
  rw [hsar]
  have hc1 : ¬ ((0 : Int) ≥ cfgC3.firstClusterWithNoAudioData
      ∨ (0 : Int) < cfgC3.firstClusterWithAudioData) := by
    have h7 : cfgC3.firstClusterWithNoAudioData = 7 := by decide
    have h0 : cfgC3.firstClusterWithAudioData = 0 := by decide
    rw [h7, h0]
    omega
  rw [if_neg hc1, if_neg (by simp)]
  simp only [Bool.false_eq_true, false_and, if_false]
  rw [if_neg (by simp)]
  have hlow : lowBits (2 * pos) cfgC3.clusterSizeMagnitude = 2 * pos := by
    have h15 : cfgC3.clusterSizeMagnitude = 15 := rfl
    rw [h15, lowBits_emod]
    apply Int.emod_eq_of_lt (by omega)
    norm_num
    omega
  rw [hlow]
  have hbps : cfgC3.bytesPerSample = 2 := rfl
  have hcs : cfgC3.clusterSize = 32768 := by decide
  rw [hbps, hcs]
  have hn2 : ¬ (n * 2 > 32768 - 2 * pos + 2 - 1 + 2) := by omega
  rw [if_neg hn2]
  rw [if_pos (show n - n = 0 by omega)]
  rw [hf]

/-- A `fillPercCache` call on the flat-storage sample with no existing
zones: a fresh zone is created at `s` and streamed to `e`, and the
outcome is the canonical fold over `[s, e)`. -/
theorem fillPercCache_flat_create (read32 : Int → Int) (pcOK : Int → Bool) (sOK : Bool)
    (pc : Int → Bool) (nc s e : Int) (hs : 0 ≤ s) (hse : s < e) (he : e ≤ 16000) :
    fillPercCache cfgC3 read32 (fun _ => true) sOK pcOK true 1 s e 100000
        ⟨[], true, true, nc, pc⟩
      = ⟨⟨[⟨s, e, max 2048 (e - s),
            (percFold cfgC3 read32 (e - s).toNat s ⟨0, 0, List.replicate kNumAngleLPFStages 0⟩ []).1.lastSampleRead,
            (percFold cfgC3 read32 (e - s).toNat s ⟨0, 0, List.replicate kNumAngleLPFStages 0⟩ []).1.lastAngle,
            (percFold cfgC3 read32 (e - s).toNat s ⟨0, 0, List.replicate kNumAngleLPFStages 0⟩ []).1.angleLPFMem⟩],
          true, true, nc, pc⟩, NO_ERROR,
        (percFold cfgC3 read32 (e - s).toNat s ⟨0, 0, List.replicate kNumAngleLPFStages 0⟩ []).2,
        none⟩ := by
  have hpdc : percCacheDoneWithClustersOf cfgC3 = false := by decide
  have hlen : cfgC3.lengthInSamples = 100000 := rfl
  rw [fillPercCache]
  rw [if_neg (by rw [hlen]; omega)]
  rw [if_neg (by rw [hpdc]; simp)]
  rw [if_neg (by simp)]
  have hfs : fillStorageAlloc cfgC3 (⟨[], true, true, nc, pc⟩ : PercCacheState)
      = ⟨[], true, true, nc, pc⟩ := by
    simp [fillStorageAlloc, hpdc]
  rw [hfs]
  simp only [fillAfterStorage]
  have hd : (decide ((1:Int) ≠ 1)) = false := by decide
  have hi0 : zoneSearchLess ([] : List SamplePercCacheZone) (s + 1) = -1 := by
    simp [zoneSearchLess, zoneFirstGE]
  simp only [hd, Bool.false_eq_true, not_false_eq_true, if_true, hi0]
  have hat : zoneAt ([] : List SamplePercCacheZone) (-1) = none := by
    simp [zoneAt]
  simp only [hat]
  simp only [fillCreateZone]
  rw [if_neg (by simp)]
  simp only [Bool.false_eq_true, not_false_eq_true, if_true]
  have hins : zonesInsertAt ([] : List SamplePercCacheZone) (-1 + 1)
      (SamplePercCacheZone.fresh s) = [SamplePercCacheZone.fresh s] := by
    simp [zonesInsertAt]
  simp only [hins]
  rw [hpdc]
  simp only [fillFromZone]
  have hat0 : zoneAt [SamplePercCacheZone.fresh s] (-1 + 1)
      = some (SamplePercCacheZone.fresh s) := by
    simp [zoneAt]
  simp only [hat0, Option.getD_some]
  have hnext : zoneAt [SamplePercCacheZone.fresh s] (-1 + 1 + 1) = none := by
    simp [zoneAt]
  have ht : fillComputeTarget cfgC3 1 false [SamplePercCacheZone.fresh s] (-1 + 1) s e 100000
      = ⟨e, false, 0⟩ := by
    simp only [fillComputeTarget, hnext, Bool.false_eq_true, not_false_eq_true, if_true,
      false_and, if_false]
    rw [hlen, min_eq_left (by omega)]
    rw [if_neg (by omega)]
  rw [ht]
  dsimp only
  rw [if_neg (by omega)]
  have hsrc : cfgC3.audioDataStartPosBytes + s * cfgC3.bytesPerSample = 2 * s := by
    have h1 : cfgC3.audioDataStartPosBytes = 0 := rfl
    have h2 : cfgC3.bytesPerSample = 2 := rfl
    rw [h1, h2]
    ring
  rw [hsrc]
  rw [show ((e : Int) - s) * 1 = e - s from mul_one _]
  rw [fillLoop_flat_single read32 pcOK (e - s) s (SamplePercCacheZone.fresh s) pc []
    (by omega) hs (by omega)]
  rw [runSegments_eq_percFold cfgC3 read32 (e - s).toNat (e - s) s _ [] (le_refl _)]
  simp only [fillAssemble]
  simp only [fillFinish]
  simp only [SamplePercCacheZone.fresh]
  rw [show s + (e - s) * 1 = e from by ring]
  rw [show ((e : Int) - s) * 1 = e - s from mul_one _]
  simp only [Bool.false_eq_true, if_false]
  have hset : ∀ (a b : SamplePercCacheZone), zonesSet [a] (-1 + 1) b = [b] := by
    intro a b
    simp [zonesSet]
  simp only [hset]
  simp only [finishGetOut]
  have hat2 : ∀ (b : SamplePercCacheZone), zoneAt [b] (-1 + 1) = some b := by
    intro b
    simp [zoneAt]
  simp only [hat2]
  rw [if_neg (by omega)]

/-- A `fillPercCache` call on the flat-storage sample starting exactly at
the single existing zone's end: the zone is extended to `e` and the
outcome is the canonical fold over `[P, e)` resumed from the zone's
stored filter state. -/
theorem fillPercCache_flat_extend (read32 : Int → Int) (pcOK : Int → Bool) (sOK : Bool)
    (pc : Int → Bool) (nc P e : Int) (z : SamplePercCacheZone)
    (hzs : 0 ≤ z.startPos) (hzP : z.endPos = P) (hsP : z.startPos < P)
    (hPe : P < e) (he : e ≤ 16000) :
    fillPercCache cfgC3 read32 (fun _ => true) sOK pcOK true 1 P e 100000
        ⟨[z], true, true, nc, pc⟩
      = ⟨⟨[⟨z.startPos, e, max 2048 (e - z.startPos),
            (percFold cfgC3 read32 (e - P).toNat P
              ⟨z.lastSampleRead, z.lastAngle, z.angleLPFMem⟩ []).1.lastSampleRead,
            (percFold cfgC3 read32 (e - P).toNat P
              ⟨z.lastSampleRead, z.lastAngle, z.angleLPFMem⟩ []).1.lastAngle,
            (percFold cfgC3 read32 (e - P).toNat P
              ⟨z.lastSampleRead, z.lastAngle, z.angleLPFMem⟩ []).1.angleLPFMem⟩],
          true, true, nc, pc⟩, NO_ERROR,
        (percFold cfgC3 read32 (e - P).toNat P
          ⟨z.lastSampleRead, z.lastAngle, z.angleLPFMem⟩ []).2,
        none⟩ := by
  subst hzP
  have hpdc : percCacheDoneWithClustersOf cfgC3 = false := by decide
  have hlen : cfgC3.lengthInSamples = 100000 := rfl
  rw [fillPercCache]
  rw [if_neg (by rw [hlen]; omega)]
  rw [if_neg (by rw [hpdc]; simp)]
  rw [if_neg (by simp)]
  have hfs : fillStorageAlloc cfgC3 (⟨[z], true, true, nc, pc⟩ : PercCacheState)
      = ⟨[z], true, true, nc, pc⟩ := by
    simp [fillStorageAlloc, hpdc]
  rw [hfs]
  simp only [fillAfterStorage]
  have hd : (decide ((1:Int) ≠ 1)) = false := by decide
  have hi0 : zoneSearchLess [z] (z.endPos + 1) = 0 := by
    rw [zoneSearchLess]
    simp only [zoneFirstGE]
    rw [if_neg (by omega)]
    norm_num
  simp only [hd, Bool.false_eq_true, not_false_eq_true, if_true, hi0,
    false_and, true_and, or_false, false_or]
  have hat0 : zoneAt [z] (0 : Int) = some z := by
    simp [zoneAt]
  simp only [hat0]
  rw [if_pos (by omega)]
  rw [if_neg (by rw [hlen]; omega)]
  rw [if_neg (by omega)]
  rw [hpdc]
  simp only [fillFromZone, hat0, Option.getD_some]
  have hnext : zoneAt [z] ((0 : Int) + 1) = none := by
    simp [zoneAt]
  have ht : fillComputeTarget cfgC3 1 false [z] 0 z.endPos e 100000
      = ⟨e, false, 0⟩ := by
    simp only [fillComputeTarget, hnext, Bool.false_eq_true, not_false_eq_true, if_true,
      false_and, if_false]
    rw [hlen, min_eq_left (by omega)]
    rw [if_neg (by omega)]
  rw [ht]
  dsimp only
  rw [if_neg (by omega)]
  have hsrc : cfgC3.audioDataStartPosBytes + z.endPos * cfgC3.bytesPerSample
      = 2 * z.endPos := by
    have h1 : cfgC3.audioDataStartPosBytes = 0 := rfl
    have h2 : cfgC3.bytesPerSample = 2 := rfl
    rw [h1, h2]
    ring
  rw [hsrc]
  rw [show ((e : Int) - z.endPos) * 1 = e - z.endPos from mul_one _]
  rw [fillLoop_flat_single read32 pcOK (e - z.endPos) z.endPos z pc []
    (by omega) (by omega) (by omega)]
  rw [runSegments_eq_percFold cfgC3 read32 (e - z.endPos).toNat (e - z.endPos) z.endPos _ []
    (le_refl _)]
  simp only [fillAssemble]
  simp only [fillFinish]
  rw [show z.endPos + (e - z.endPos) * 1 = e from by ring]
  rw [show ((e : Int) - z.startPos) * 1 = e - z.startPos from mul_one _]
  simp only [Bool.false_eq_true, if_false]
  have hset : ∀ (a b : SamplePercCacheZone), zonesSet [a] (0 : Int) b = [b] := by
    intro a b
    simp [zonesSet]
  simp only [hset]
  simp only [finishGetOut]
  have hat2 : ∀ (b : SamplePercCacheZone), zoneAt [b] (0 : Int) = some b := by
    intro b
    simp [zoneAt]
  simp only [hat2]
  rw [if_neg (by omega)]

/-- Claim C3: on the flat-storage sample, filling `[0, 1000)` and then
`[1000, 2000)` in two `fillPercCache` calls yields the same final cache
state (zone bounds, provisional prefix and resumable filter state) and
the same emitted envelope bytes, in order, as one call over `[0, 2000)`,
for every source audio `read32`; all three calls return `NO_ERROR`. -/
theorem fillPercCache_resume_split (read32 : Int → Int) (pcOK : Int → Bool)
    (sOK : Bool) (pc : Int → Bool) :
    (fillPercCache cfgC3 read32 (fun _ => true) sOK pcOK true 1 0 2000 100000
        ⟨[], true, true, 0, pc⟩).state
      = (fillPercCache cfgC3 read32 (fun _ => true) sOK pcOK true 1 1000 2000 100000
          (fillPercCache cfgC3 read32 (fun _ => true) sOK pcOK true 1 0 1000 100000
            ⟨[], true, true, 0, pc⟩).state).state
    ∧ (fillPercCache cfgC3 read32 (fun _ => true) sOK pcOK true 1 0 2000 100000
        ⟨[], true, true, 0, pc⟩).writes
      = (fillPercCache cfgC3 read32 (fun _ => true) sOK pcOK true 1 0 1000 100000
          ⟨[], true, true, 0, pc⟩).writes
        ++ (fillPercCache cfgC3 read32 (fun _ => true) sOK pcOK true 1 1000 2000 100000
          (fillPercCache cfgC3 read32 (fun _ => true) sOK pcOK true 1 0 1000 100000
            ⟨[], true, true, 0, pc⟩).state).writes
    ∧ (fillPercCache cfgC3 read32 (fun _ => true) sOK pcOK true 1 0 2000 100000
        ⟨[], true, true, 0, pc⟩).error = NO_ERROR
    ∧ (fillPercCache cfgC3 read32 (fun _ => true) sOK pcOK true 1 0 1000 100000
        ⟨[], true, true, 0, pc⟩).error = NO_ERROR
    ∧ (fillPercCache cfgC3 read32 (fun _ => true) sOK pcOK true 1 1000 2000 100000
        (fillPercCache cfgC3 read32 (fun _ => true) sOK pcOK true 1 0 1000 100000
          ⟨[], true, true, 0, pc⟩).state).error = NO_ERROR := by
  have h1 := fillPercCache_flat_create read32 pcOK sOK pc 0 0 2000
    (by norm_num) (by norm_num) (by norm_num)
  have h2 := fillPercCache_flat_create read32 pcOK sOK pc 0 0 1000
    (by norm_num) (by norm_num) (by norm_num)
  rw [h1, h2]
  dsimp only
  have h3 := fillPercCache_flat_extend read32 pcOK sOK pc 0 1000 2000
    ⟨0, 1000, max 2048 ((1000 : Int) - 0),
      (percFold cfgC3 read32 ((1000 : Int) - 0).toNat 0
        ⟨0, 0, List.replicate kNumAngleLPFStages 0⟩ []).1.lastSampleRead,
      (percFold cfgC3 read32 ((1000 : Int) - 0).toNat 0
        ⟨0, 0, List.replicate kNumAngleLPFStages 0⟩ []).1.lastAngle,
      (percFold cfgC3 read32 ((1000 : Int) - 0).toNat 0
        ⟨0, 0, List.replicate kNumAngleLPFStages 0⟩ []).1.angleLPFMem⟩
    (by norm_num) rfl (by norm_num) (by norm_num) (by norm_num)
  rw [h3]
  dsimp only
  have heta : ∀ s : SegmentState,
      (⟨s.lastSampleRead, s.lastAngle, s.angleLPFMem⟩ : SegmentState) = s := fun s => rfl
  simp only [heta]
  rw [show ((2000 : Int) - 0).toNat = 2000 from by decide]
  rw [show ((1000 : Int) - 0).toNat = 1000 from by decide]
  rw [show ((2000 : Int) - 1000).toNat = 1000 from by decide]
  have hkey : percFold cfgC3 read32 2000 0 ⟨0, 0, List.replicate kNumAngleLPFStages 0⟩ []
      = ((percFold cfgC3 read32 1000 1000
            (percFold cfgC3 read32 1000 0 ⟨0, 0, List.replicate kNumAngleLPFStages 0⟩ []).1
            []).1,
         (percFold cfgC3 read32 1000 0 ⟨0, 0, List.replicate kNumAngleLPFStages 0⟩ []).2
           ++ (percFold cfgC3 read32 1000 1000
            (percFold cfgC3 read32 1000 0 ⟨0, 0, List.replicate kNumAngleLPFStages 0⟩ []).1
            []).2) := by
    have ha := percFold_add cfgC3 read32 1000 1000 0
      ⟨0, 0, List.replicate kNumAngleLPFStages 0⟩ []
    rw [show (2000 : Nat) = 1000 + 1000 from by norm_num, ha]
    norm_num
    exact percFold_append cfgC3 read32 1000 1000 _ _
  rw [hkey]
  dsimp only
  exact ⟨rfl, rfl, trivial, trivial, trivial⟩

/-- Claim C3, witness: the resume-correctness statement applied at a
concrete source audio and concrete oracles. -/
theorem fillPercCache_resume_split_witness :
    (fillPercCache cfgC3 (fun _ => 0) (fun _ => true) true (fun _ => true) true 1 0 2000
        100000 ⟨[], true, true, 0, fun _ => false⟩).state
      = (fillPercCache cfgC3 (fun _ => 0) (fun _ => true) true (fun _ => true) true 1 1000
          2000 100000
          (fillPercCache cfgC3 (fun _ => 0) (fun _ => true) true (fun _ => true) true 1 0
            1000 100000 ⟨[], true, true, 0, fun _ => false⟩).state).state
    ∧ (fillPercCache cfgC3 (fun _ => 0) (fun _ => true) true (fun _ => true) true 1 0 2000
        100000 ⟨[], true, true, 0, fun _ => false⟩).writes
      = (fillPercCache cfgC3 (fun _ => 0) (fun _ => true) true (fun _ => true) true 1 0 1000
          100000 ⟨[], true, true, 0, fun _ => false⟩).writes
        ++ (fillPercCache cfgC3 (fun _ => 0) (fun _ => true) true (fun _ => true) true 1 1000
          2000 100000
          (fillPercCache cfgC3 (fun _ => 0) (fun _ => true) true (fun _ => true) true 1 0
            1000 100000 ⟨[], true, true, 0, fun _ => false⟩).state).writes
    ∧ (fillPercCache cfgC3 (fun _ => 0) (fun _ => true) true (fun _ => true) true 1 0 2000
        100000 ⟨[], true, true, 0, fun _ => false⟩).error = NO_ERROR
    ∧ (fillPercCache cfgC3 (fun _ => 0) (fun _ => true) true (fun _ => true) true 1 0 1000
        100000 ⟨[], true, true, 0, fun _ => false⟩).error = NO_ERROR
    ∧ (fillPercCache cfgC3 (fun _ => 0) (fun _ => true) true (fun _ => true) true 1 1000 2000
        100000
        (fillPercCache cfgC3 (fun _ => 0) (fun _ => true) true (fun _ => true) true 1 0 1000
          100000 ⟨[], true, true, 0, fun _ => false⟩).state).error = NO_ERROR :=
  fillPercCache_resume_split (fun _ => 0) (fun _ => true) true (fun _ => false)

end DelugeSample
